import Mathlib

/-!
Category handlers of the family budget server.

A shallow embedding of the Category slice of the server:

* `models.Category` (backend/internal/models/models.go),
* `database.SeedData` (backend/internal/database/database.go),
* the five handlers of server/internal/handlers/categories.go.

The handlers are translated statement by statement. The two libraries they
call are embedded as follows.

* `strconv.ParseUint` is translated for base 10, the only base the handlers
  pass. The Go loop ranges over bytes; here it ranges over the characters of
  the string. Every byte of a character outside ASCII is at least 0x80 and
  takes the loop's syntax-error exit, which is what the default branch below
  answers for such a character.
* The `*gorm.DB` handle is a value of `DB`: the rows of the `categories`
  table in insertion order, and the table's AUTO_INCREMENT counter. The
  operations `Find`, `First`, `Count`, `Create`, `Updates` and `Delete` follow
  the statements the ORM issues for a model with a primary key and a
  `gorm.DeletedAt` column: reads and writes carry `deleted_at IS NULL`,
  `Create` fills the zero-valued primary key, default and timestamps and then
  saves the records held by the relation slices, `Updates` with a struct
  assigns its non-zero fields, `Delete` sets `deleted_at`. The primary key is
  unique over all rows, soft-deleted ones included. What else the engine
  enforces on a row (column sizes, the `check` on `type`) is a parameter `eng`:
  a statement that would write a row with `eng row = false` fails and changes
  nothing. `schemaEnforce` is that parameter as declared by the tags of
  `models.Category`.

The clock (`NowFunc`) is an argument `now`; a timestamp is a natural number
and `0` is the zero `time.Time`. The relations `Transactions` and `Budgets`
of a category live in other tables; of the records a body nests in them the
model keeps those that reach the `categories` table, the categories the nested
transactions and budgets belong to, which `Create` inserts after the category
itself. Failures of the connection itself, and of the statements on the other
tables, are not modelled: a store operation fails only for the reasons listed
above.
-/

namespace FamilyBudget

/-! ## Domain record -/

/-- The struct `models.Category` without its relation slices. `Typ` is the Go
field `Type`; `DeletedAt` is `none` for a NULL `deleted_at`. -/
structure Category where
  ID : Nat
  Name : String
  Typ : String
  Color : String
  Description : String
  CreatedAt : Nat
  UpdatedAt : Nat
  DeletedAt : Option Nat
deriving DecidableEq, Repr

/-- The columns of a `category` member found inside the `transactions` or
`budgets` member of a body: the category a nested transaction or budget
belongs to. `DeletedAt` is tagged `json:"-"` and does not decode. -/
structure NestedJSON where
  ID : Nat
  Name : String
  Typ : String
  Color : String
  Description : String
  CreatedAt : Nat
  UpdatedAt : Nat
deriving DecidableEq, Repr

/-- The members of a JSON body that decode into `models.Category`: every
column but `DeletedAt`, which is tagged `json:"-"`, and the relation slices
`transactions` and `budgets`. A member left out of the body has the zero
value. Of a relation slice the model keeps what reaches the `categories`
table: the `category` records nested in its transactions or budgets, at any
depth, as decoded and in the order the store saves them. The nested
transaction, budget and user records belong to other tables. -/
structure CategoryJSON where
  ID : Nat
  Name : String
  Typ : String
  Color : String
  Description : String
  CreatedAt : Nat
  UpdatedAt : Nat
  Transactions : List NestedJSON := []
  Budgets : List NestedJSON := []
deriving DecidableEq, Repr

/-- The largest value of the Go type `uint` (64 bits), the type of `ID`. -/
def maxUint64 : Nat := 2 ^ 64 - 1

/-- The call `c.ShouldBindJSON(&category)` on a zero `models.Category`. The
body is `none` when it is not JSON of the right shape; an `id` that does not
fit `uint` fails to decode as well. -/
def ShouldBindJSON (body : Option CategoryJSON) : Option Category :=
  match body with
  | none => none
  | some j =>
    if j.ID ≤ maxUint64 then
      some { ID := j.ID, Name := j.Name, Typ := j.Typ, Color := j.Color,
             Description := j.Description, CreatedAt := j.CreatedAt,
             UpdatedAt := j.UpdatedAt, DeletedAt := none }
    else none

/-! ## strconv.ParseUint, base 10 -/

/-- The two errors of `strconv.ParseUint` on a valid base and bit size. -/
inductive NumError where
  | ErrSyntax
  | ErrRange
deriving DecidableEq, Repr

/-- The smallest number such that `cutoff * 10 > maxUint64`. -/
def cutoff : Nat := maxUint64 / 10 + 1

/-- The `switch` of the loop: the digit value of a byte, `none` in the default
case. The function `lower(c)` of the source is `c | 0x20`. A character outside
ASCII stands for bytes of 0x80 and more, which take the default case. -/
def digitValue (c : Char) : Option Nat :=
  if 48 ≤ c.toNat ∧ c.toNat ≤ 57 then some (c.toNat - 48)
  else if c.toNat < 128 ∧ 97 ≤ (c.toNat ||| 32) ∧ (c.toNat ||| 32) ≤ 122 then
    some ((c.toNat ||| 32) - 97 + 10)
  else none

/-- The loop of `strconv.ParseUint` for base 10 over the remaining characters,
with the accumulator `n` a `uint64`. -/
def parseLoop (maxVal : Nat) : List Char → Nat → Except NumError Nat
  | [], n => .ok n
  | c :: cs, n =>
    match digitValue c with
    | none => .error .ErrSyntax
    | some d =>
      if d ≥ 10 then .error .ErrSyntax
      else if n ≥ cutoff then .error .ErrRange
      else
        let n10 := n * 10 % 2 ^ 64
        let n1 := (n10 + d) % 2 ^ 64
        if n1 < n10 ∨ n1 > maxVal then .error .ErrRange
        else parseLoop maxVal cs n1

/-- The call `strconv.ParseUint(s, 10, bitSize)` for `1 ≤ bitSize ≤ 64`. -/
def ParseUint (s : String) (bitSize : Nat) : Except NumError Nat :=
  if s = "" then .error .ErrSyntax
  else parseLoop (2 ^ bitSize - 1) s.data 0

/-! ## The store -/

/-- The errors a store operation can report. -/
inductive StoreError where
  | ErrRecordNotFound
  | ErrMissingWhereClause
  | ErrDuplicateEntry
  | ErrConstraint
  | ErrAutoIncrement
deriving DecidableEq, Repr

/-- The `categories` table: its rows in insertion order, soft-deleted rows
included, and `seq`, the largest primary key the AUTO_INCREMENT counter has
seen (the next generated key is `seq + 1`). -/
structure DB where
  rows : List Category
  seq : Nat
deriving DecidableEq, Repr

/-- The table right after migration. -/
def DB.empty : DB := { rows := [], seq := 0 }

/-- The default of the `color` column, from the tag `default:'#6B7280'`. -/
def colorDefault : String := "#6B7280"

/-- What the columns declared by the tags of `models.Category` accept:
`size:50`, `size:10` with `check:type IN ('income', 'expense')`, `size:7`,
`size:200`, and a key that fits the column of a `uint`. -/
def schemaEnforce (c : Category) : Bool :=
  decide (c.Name.length ≤ 50) && decide (c.Typ.length ≤ 10) &&
  (c.Typ == "income" || c.Typ == "expense") &&
  decide (c.Color.length ≤ 7) && decide (c.Description.length ≤ 200) &&
  decide (c.ID ≤ maxUint64)

/-- The soft-delete scope `deleted_at IS NULL`. -/
def Category.visible (c : Category) : Bool := c.DeletedAt.isNone

/-- The call `DB.Find(&categories)`, that is
`SELECT * FROM categories WHERE deleted_at IS NULL`: every row in scope, no
ordering clause. -/
def DB.Find (db : DB) : Except StoreError (List Category) :=
  .ok (db.rows.filter Category.visible)

/-- The call `DB.Model(&models.Category{}).Count(&n)`, that is
`SELECT count(*) FROM categories WHERE deleted_at IS NULL`: the number of rows
in scope. -/
def DB.Count (db : DB) : Except StoreError Nat :=
  .ok (db.rows.filter Category.visible).length

/-- The call `DB.First(&category, id)`, that is
`SELECT * FROM categories WHERE id = ? AND deleted_at IS NULL ORDER BY id LIMIT 1`:
the row in scope whose key is `id`, or `ErrRecordNotFound`. -/
def DB.First (db : DB) (id : Nat) : Except StoreError Category :=
  match db.rows.find? (fun r => r.ID == id && r.visible) with
  | some r => .ok r
  | none => .error .ErrRecordNotFound

/-- The record a create writes for `c`: a zero key is generated, a zero color
takes the column default, zero timestamps take the clock. -/
def fillCreate (seq now : Nat) (c : Category) : Category :=
  { c with
    ID := if c.ID = 0 then seq + 1 else c.ID
    Color := if c.Color = "" then colorDefault else c.Color
    CreatedAt := if c.CreatedAt = 0 then now else c.CreatedAt
    UpdatedAt := if c.UpdatedAt = 0 then now else c.UpdatedAt }

/-- The `INSERT` of one record: the filled record and the table with it
appended, or an error and no change. The insert fails when the generated key
does not fit the column, when the key is already the key of a row, soft-deleted
or not, and when the engine rejects the row. A key supplied by the record moves
the counter past it. -/
def DB.insert (eng : Category → Bool) (db : DB) (now : Nat) (c : Category) :
    Except StoreError (Category × DB) :=
  let r := fillCreate db.seq now c
  if r.ID > maxUint64 then .error .ErrAutoIncrement
  else if db.rows.any (fun x => x.ID == r.ID) then .error .ErrDuplicateEntry
  else if !eng r then .error .ErrConstraint
  else .ok (r, { rows := db.rows ++ [r], seq := max db.seq r.ID })

/-- The insert of one record of an association save,
`INSERT ... ON DUPLICATE KEY UPDATE id = id`: like `DB.insert`, but a record
whose key is already the key of a row is skipped and leaves the table as it
is. -/
def DB.saveNested (eng : Category → Bool) (db : DB) (now : Nat) (c : Category) :
    Except StoreError DB :=
  let r := fillCreate db.seq now c
  if r.ID > maxUint64 then .error .ErrAutoIncrement
  else if !eng r then .error .ErrConstraint
  else if db.rows.any (fun x => x.ID == r.ID) then .ok db
  else .ok { rows := db.rows ++ [r], seq := max db.seq r.ID }

/-- The association save of a create over the nested category records, in
order, up to the first that fails. -/
def DB.saveAll (eng : Category → Bool) (db : DB) (now : Nat) :
    List Category → Except StoreError DB
  | [] => .ok db
  | c :: cs =>
    match db.saveNested eng now c with
    | .error e => .error e
    | .ok db1 => DB.saveAll eng db1 now cs

/-- The call `DB.Create(&category)` on a struct with the columns `c` whose
relation slices hold the category records `nested`: the `INSERT` of the record
itself, then the association save. The call runs in one transaction: when a
step fails the table is left as it was. The rows of the other tables are not
modelled; a nested transaction, budget or user row that the engine refuses
makes the call fail without a change, like a failure of the connection. -/
def DB.Create (eng : Category → Bool) (db : DB) (now : Nat) (c : Category)
    (nested : List Category) : Except StoreError (Category × DB) :=
  match db.insert eng now c with
  | .error e => .error e
  | .ok (r, db1) =>
    match db1.saveAll eng now nested with
    | .error e => .error e
    | .ok db2 => .ok (r, db2)

/-- The call `DB.Create(&categories)` on a slice of records without relation
data: one `INSERT`, so either every record is inserted or none is. -/
def DB.CreateAll (eng : Category → Bool) (db : DB) (now : Nat) :
    List Category → Except StoreError (List Category × DB)
  | [] => .ok ([], db)
  | c :: cs =>
    match db.insert eng now c with
    | .error e => .error e
    | .ok (r, db1) =>
      match DB.CreateAll eng db1 now cs with
      | .error e => .error e
      | .ok (rs, db2) => .ok (r :: rs, db2)

/-- The assignments of `Updates(u)` on a row `r`, for a struct `u`: every
non-zero field of `u` and `updated_at` from the clock. The handler passes `u`
by value and apart from the model, so its primary key is not turned into a
condition: a non-zero `u.ID` is assigned like the other fields. -/
def assign (now : Nat) (u r : Category) : Category :=
  { ID := if u.ID = 0 then r.ID else u.ID
    Name := if u.Name = "" then r.Name else u.Name
    Typ := if u.Typ = "" then r.Typ else u.Typ
    Color := if u.Color = "" then r.Color else u.Color
    Description := if u.Description = "" then r.Description else u.Description
    CreatedAt := if u.CreatedAt = 0 then r.CreatedAt else u.CreatedAt
    UpdatedAt := now
    DeletedAt := match u.DeletedAt with
      | none => r.DeletedAt
      | some t => some t }

/-- The call `DB.Model(&model).Updates(u)`, that is
`UPDATE categories SET ... WHERE id = model.ID AND deleted_at IS NULL`: the
assignments are made on the rows the statement addresses and on `model`, which
is returned. The statement fails, and changes nothing, without a key to
address, when it would give a row the key of another row, and when the engine
rejects an updated row. -/
def DB.Updates (eng : Category → Bool) (db : DB) (now : Nat) (model u : Category) :
    Except StoreError (Category × DB) :=
  if model.ID = 0 then .error .ErrMissingWhereClause
  else
    let hit := fun (r : Category) => r.ID == model.ID && r.visible
    let rows1 := db.rows.map (fun r => if hit r then assign now u r else r)
    if u.ID ≠ 0 ∧ u.ID ≠ model.ID ∧ db.rows.any hit ∧ db.rows.any (fun x => x.ID == u.ID) then
      .error .ErrDuplicateEntry
    else if (db.rows.filter hit).any (fun r => !eng (assign now u r)) then
      .error .ErrConstraint
    else
      .ok (assign now u model,
           { rows := rows1, seq := if db.rows.any hit then max db.seq u.ID else db.seq })

/-- The call `DB.Delete(&models.Category{}, id)` on a model with a
`gorm.DeletedAt` field, that is
`UPDATE categories SET deleted_at = now WHERE id = ? AND deleted_at IS NULL`:
a soft delete, which reports the number of rows it affected. -/
def DB.Delete (db : DB) (now : Nat) (id : Nat) : Except StoreError (Nat × DB) :=
  let hit := fun (r : Category) => r.ID == id && r.visible
  .ok ((db.rows.filter hit).length,
       { db with rows := db.rows.map (fun r => if hit r then { r with DeletedAt := some now } else r) })

/-! ## database.SeedData -/

/-- The slice of starter categories built by `SeedData`. -/
def seedCategories : List Category :=
  [ { ID := 0, Name := "食費", Typ := "expense", Color := "#EF4444",
      Description := "食料品・外食費", CreatedAt := 0, UpdatedAt := 0, DeletedAt := none },
    { ID := 0, Name := "交通費", Typ := "expense", Color := "#F97316",
      Description := "電車・バス・タクシー代", CreatedAt := 0, UpdatedAt := 0, DeletedAt := none },
    { ID := 0, Name := "娯楽費", Typ := "expense", Color := "#EAB308",
      Description := "映画・ゲーム・趣味", CreatedAt := 0, UpdatedAt := 0, DeletedAt := none },
    { ID := 0, Name := "光熱費", Typ := "expense", Color := "#22C55E",
      Description := "電気・ガス・水道代", CreatedAt := 0, UpdatedAt := 0, DeletedAt := none },
    { ID := 0, Name := "通信費", Typ := "expense", Color := "#3B82F6",
      Description := "携帯・インターネット代", CreatedAt := 0, UpdatedAt := 0, DeletedAt := none },
    { ID := 0, Name := "医療費", Typ := "expense", Color := "#8B5CF6",
      Description := "病院・薬代", CreatedAt := 0, UpdatedAt := 0, DeletedAt := none },
    { ID := 0, Name := "給与", Typ := "income", Color := "#10B981",
      Description := "会社からの給与", CreatedAt := 0, UpdatedAt := 0, DeletedAt := none },
    { ID := 0, Name := "副収入", Typ := "income", Color := "#06B6D4",
      Description := "副業・その他収入", CreatedAt := 0, UpdatedAt := 0, DeletedAt := none } ]

/-- The function `SeedData`. The error of `Count` is not looked at, so a
failed count leaves `categoryCount` at zero. The result is the returned error,
if any, and the table afterwards. -/
def SeedData (eng : Category → Bool) (db : DB) (now : Nat) : Option StoreError × DB :=
  let categoryCount := match db.Count with
    | .ok n => n
    | .error _ => 0
  if categoryCount = 0 then
    match db.CreateAll eng now seedCategories with
    | .error e => (some e, db)
    | .ok (_, db1) => (none, db1)
  else (none, db)

/-! ## The handlers -/

/-- The JSON body of a response: `gin.H` with the keys the handlers use. -/
inductive Body where
  | error (msg : String)
  | data (c : Category)
  | list (data : List Category) (count : Nat)
  | message (msg : String)
deriving DecidableEq, Repr

/-- What `c.JSON(status, body)` sends. -/
structure Response where
  status : Nat
  body : Body
deriving DecidableEq, Repr

/-- The handler `GetCategories`. -/
def GetCategories (db : DB) : Response :=
  match db.Find with
  | .error _ => ⟨500, .error "Failed to fetch categories"⟩
  | .ok categories => ⟨200, .list categories categories.length⟩

/-- The category records that `c.ShouldBindJSON(&category)` leaves in the
relation slices of `category`, those of `Transactions` before those of
`Budgets`, the order in which `Create` saves the two relations. -/
def associations (body : Option CategoryJSON) : List Category :=
  match body with
  | none => []
  | some j =>
    (j.Transactions ++ j.Budgets).map (fun n =>
      { ID := n.ID, Name := n.Name, Typ := n.Typ, Color := n.Color,
        Description := n.Description, CreatedAt := n.CreatedAt,
        UpdatedAt := n.UpdatedAt, DeletedAt := none })

/-- The handler `CreateCategory`, on the request body and the clock. The
struct `category` is carried as its columns, which `ShouldBindJSON` gives, and
its relation slices, which `associations` gives; the answer shows the
columns. -/
def CreateCategory (eng : Category → Bool) (db : DB) (now : Nat)
    (body : Option CategoryJSON) : Response × DB :=
  match ShouldBindJSON body with
  | none => (⟨400, .error "Invalid request body"⟩, db)
  | some category =>
    if category.Typ ≠ "income" ∧ category.Typ ≠ "expense" then
      (⟨400, .error "Category type must be \x27income\x27 or \x27expense\x27"⟩, db)
    else
      let category :=
        if category.Color = "" then { category with Color := "#6B7280" } else category
      match db.Create eng now category (associations body) with
      | .error _ => (⟨500, .error "Failed to create category"⟩, db)
      | .ok (category, db1) => (⟨201, .data category⟩, db1)

/-- The handler `GetCategory`, on the path parameter `id`. -/
def GetCategory (db : DB) (id : String) : Response :=
  match ParseUint id 32 with
  | .error _ => ⟨400, .error "Invalid category ID"⟩
  | .ok categoryID =>
    match db.First categoryID with
    | .error _ => ⟨404, .error "Category not found"⟩
    | .ok category => ⟨200, .data category⟩

/-- The handler `UpdateCategory`, on the path parameter `id`, the request body
and the clock. `Updates` assigns columns only and saves the relations of the
model, which `First` loaded without any, so the relation slices of
`updateData` play no part. -/
def UpdateCategory (eng : Category → Bool) (db : DB) (now : Nat) (id : String)
    (body : Option CategoryJSON) : Response × DB :=
  match ParseUint id 32 with
  | .error _ => (⟨400, .error "Invalid category ID"⟩, db)
  | .ok categoryID =>
    match db.First categoryID with
    | .error _ => (⟨404, .error "Category not found"⟩, db)
    | .ok category =>
      match ShouldBindJSON body with
      | none => (⟨400, .error "Invalid request body"⟩, db)
      | some updateData =>
        if updateData.Typ ≠ "" ∧ updateData.Typ ≠ "income" ∧ updateData.Typ ≠ "expense" then
          (⟨400, .error "Category type must be \x27income\x27 or \x27expense\x27"⟩, db)
        else
          match db.Updates eng now category updateData with
          | .error _ => (⟨500, .error "Failed to update category"⟩, db)
          | .ok (category, db1) => (⟨200, .data category⟩, db1)

/-- The handler `DeleteCategory`, on the path parameter `id` and the clock. -/
def DeleteCategory (db : DB) (now : Nat) (id : String) : Response × DB :=
  match ParseUint id 32 with
  | .error _ => (⟨400, .error "Invalid category ID"⟩, db)
  | .ok categoryID =>
    match db.Delete now categoryID with
    | .error _ => (⟨500, .error "Failed to delete category"⟩, db)
    | .ok (rowsAffected, db1) =>
      if rowsAffected = 0 then (⟨404, .error "Category not found"⟩, db1)
      else (⟨200, .message "Category deleted successfully"⟩, db1)

/-! ## Sequences of calls -/

/-- A call that can write to the table, with the reading of the clock it is
made at. -/
inductive Call where
  | seed (now : Nat)
  | create (now : Nat) (body : Option CategoryJSON)
  | update (now : Nat) (id : String) (body : Option CategoryJSON)
  | delete (now : Nat) (id : String)
deriving DecidableEq, Repr

/-- The table after one call. -/
def Call.apply (eng : Category → Bool) (db : DB) : Call → DB
  | .seed now => (SeedData eng db now).2
  | .create now body => (CreateCategory eng db now body).2
  | .update now id body => (UpdateCategory eng db now id body).2
  | .delete now id => (DeleteCategory db now id).2

/-- The table after a sequence of calls, made from left to right. -/
def runCalls (eng : Category → Bool) (db : DB) (calls : List Call) : DB :=
  calls.foldl (Call.apply eng) db

/-- The nested category records a call hands to the store: those of the body of
a create, none for the other calls. -/
def Call.nested : Call → List Category
  | .create _ body => associations body
  | _ => []

/-! ## Names for the answers and records of the handlers -/

/-- The answer to a path parameter that does not parse. -/
def invalidID : Response := ⟨400, .error "Invalid category ID"⟩

/-- The answer to a type outside the enumeration. -/
def invalidType : Response :=
  ⟨400, .error "Category type must be \x27income\x27 or \x27expense\x27"⟩

/-- The answer when no row in scope has the key. -/
def notFound : Response := ⟨404, .error "Category not found"⟩

/-- The answer to a delete that affected a row. -/
def deleted : Response := ⟨200, .message "Category deleted successfully"⟩

/-- The struct a body `j` decodes into. -/
def bound (j : CategoryJSON) : Category :=
  { ID := j.ID, Name := j.Name, Typ := j.Typ, Color := j.Color,
    Description := j.Description, CreatedAt := j.CreatedAt,
    UpdatedAt := j.UpdatedAt, DeletedAt := none }

/-- The record `CreateCategory` hands to the store for a body `j` that binds
and passes the type check. -/
def toCreate (j : CategoryJSON) : Category :=
  { ID := j.ID, Name := j.Name, Typ := j.Typ,
    Color := if j.Color = "" then "#6B7280" else j.Color,
    Description := j.Description, CreatedAt := j.CreatedAt,
    UpdatedAt := j.UpdatedAt, DeletedAt := none }

/-! ## The rows after the statements of delete and update -/

/-- The rows of the table after the statement of `DB.Delete` on key `n`. -/
def rowsAfterDelete (rows : List Category) (now n : Nat) : List Category :=
  rows.map (fun r => if r.ID = n ∧ r.DeletedAt = none then { r with DeletedAt := some now } else r)

/-- The rows of the table after the statement of `DB.Updates` on key `k`. -/
def rowsAfterUpdate (rows : List Category) (now k : Nat) (u : Category) : List Category :=
  rows.map (fun r => if r.ID = k ∧ r.DeletedAt = none then assign now u r else r)

/-! ## Path identifiers, in the words of the specification -/

/-- An ASCII decimal digit. -/
def isDecimalDigit (c : Char) : Bool := decide (48 ≤ c.toNat) && decide (c.toNat ≤ 57)

/-- The number a list of decimal digits denotes, most significant first. -/
def decimalValue (cs : List Char) : Nat :=
  cs.foldl (fun n c => 10 * n + (c.toNat - 48)) 0

/-- The identifiers of the specification: a non-empty string of ASCII decimal
digits that denotes a value of at most 4294967295. -/
def isUint32Literal (s : String) : Bool :=
  s != "" && s.data.all isDecimalDigit && decide (decimalValue s.data ≤ 4294967295)

/-- The decimal numeral of `n` without leading zeros, the way the `id` of a
JSON response is written into a path. -/
def decimal (n : Nat) : String :=
  if n = 0 then "0"
  else String.mk ((Nat.digits 10 n).reverse.map (fun d => Char.ofNat (48 + d)))

/-! ## Properties of a table -/

/-- A row with a type of the enumeration and a color that is not empty. -/
def validRow (c : Category) : Prop :=
  (c.Typ = "income" ∨ c.Typ = "expense") ∧ c.Color ≠ ""

/-- Every row of the table is valid. -/
def validTable (db : DB) : Prop := ∀ r ∈ db.rows, validRow r

/-- The key `n` is taken by the soft-deleted row `dead` and by no row in
scope. -/
def keyRetired (n : Nat) (dead : Category) (db : DB) : Prop :=
  dead.ID = n ∧ dead ∈ db.rows ∧ ∀ r ∈ db.rows, r.ID = n → r.DeletedAt ≠ none

/-- The members of a row that `SeedData` presets, and its soft-delete marker. -/
def Category.preset (c : Category) : String × String × String × String × Option Nat :=
  (c.Name, c.Typ, c.Color, c.Description, c.DeletedAt)

/-! ## Sample bodies and tables -/

/-- A body with the given name, type and color and nothing else. -/
def payload (name typ color : String) : CategoryJSON :=
  { ID := 0, Name := name, Typ := typ, Color := color, Description := "",
    CreatedAt := 0, UpdatedAt := 0 }

/-- The table after seeding the empty table at clock reading 1. -/
def seeded : DB := (SeedData schemaEnforce DB.empty 1).2

/-- The rows of the seeded table at clock reading `now`. -/
def seedRows (now : Nat) : List Category :=
  [ { ID := 1, Name := "食費", Typ := "expense", Color := "#EF4444",
      Description := "食料品・外食費", CreatedAt := now, UpdatedAt := now, DeletedAt := none },
    { ID := 2, Name := "交通費", Typ := "expense", Color := "#F97316",
      Description := "電車・バス・タクシー代", CreatedAt := now, UpdatedAt := now,
      DeletedAt := none },
    { ID := 3, Name := "娯楽費", Typ := "expense", Color := "#EAB308",
      Description := "映画・ゲーム・趣味", CreatedAt := now, UpdatedAt := now, DeletedAt := none },
    { ID := 4, Name := "光熱費", Typ := "expense", Color := "#22C55E",
      Description := "電気・ガス・水道代", CreatedAt := now, UpdatedAt := now, DeletedAt := none },
    { ID := 5, Name := "通信費", Typ := "expense", Color := "#3B82F6",
      Description := "携帯・インターネット代", CreatedAt := now, UpdatedAt := now,
      DeletedAt := none },
    { ID := 6, Name := "医療費", Typ := "expense", Color := "#8B5CF6",
      Description := "病院・薬代", CreatedAt := now, UpdatedAt := now, DeletedAt := none },
    { ID := 7, Name := "給与", Typ := "income", Color := "#10B981",
      Description := "会社からの給与", CreatedAt := now, UpdatedAt := now, DeletedAt := none },
    { ID := 8, Name := "副収入", Typ := "income", Color := "#06B6D4",
      Description := "副業・その他収入", CreatedAt := now, UpdatedAt := now, DeletedAt := none } ]

/-- The first row of the seeded table. -/
def firstSeed : Category :=
  { ID := 1, Name := "食費", Typ := "expense", Color := "#EF4444",
    Description := "食料品・外食費", CreatedAt := 1, UpdatedAt := 1, DeletedAt := none }

/-- A body that carries a new name and nothing else. -/
def renamePayload : CategoryJSON := payload "Food" "" ""

/-- A body that carries an id of its own, 77, and nothing else. -/
def moveIDPayload : CategoryJSON :=
  { ID := 77, Name := "", Typ := "", Color := "", Description := "", CreatedAt := 0,
    UpdatedAt := 0 }

/-- A body with type `expense` that carries its own id, 2 ^ 32. -/
def wideIDPayload : CategoryJSON :=
  { ID := 4294967296, Name := "Test", Typ := "expense", Color := "", Description := "",
    CreatedAt := 0, UpdatedAt := 0 }

/-- The record returned for the body of name `Test`, type `expense` and no
color on the empty table at clock reading 5. -/
def testRecord : Category :=
  { ID := 1, Name := "Test", Typ := "expense", Color := "#6B7280", Description := "",
    CreatedAt := 5, UpdatedAt := 5, DeletedAt := none }

/-- A sequence of calls: seed, create without a color, an update that tries an
empty type and color, a delete. -/
def sampleCalls : List Call :=
  [ .seed 1, .create 2 (some (payload "Test" "expense" "")),
    .update 3 "9" (some (payload "Renamed" "" "")), .delete 4 "2" ]

/-- A table whose only row is soft-deleted: one create, then its delete. -/
def onlyDeleted : DB :=
  runCalls schemaEnforce DB.empty
    [ .create 1 (some (payload "Old" "expense" "")), .delete 2 "1" ]

/-- Every row of the table has a color that is not empty. -/
def colorTable (db : DB) : Prop := ∀ r ∈ db.rows, r.Color ≠ ""

/-- What an engine accepts that enforces the column sizes of `models.Category`
but parses its `check` constraint without enforcing it. -/
def sizesEnforce (c : Category) : Bool :=
  decide (c.Name.length ≤ 50) && decide (c.Typ.length ≤ 10) &&
  decide (c.Color.length ≤ 7) && decide (c.Description.length ≤ 200) &&
  decide (c.ID ≤ maxUint64)

/-- A body of name `Test`, type `expense` and no color that carries an id of
its own, 5000. -/
def chosenIDPayload : CategoryJSON :=
  { ID := 5000, Name := "Test", Typ := "expense", Color := "", Description := "",
    CreatedAt := 0, UpdatedAt := 0 }

/-- A body of name `Test` and type `expense` with one transaction, whose
`category` member has the name `x` and the type `zzz`. -/
def nestedPayload : CategoryJSON :=
  { ID := 0, Name := "Test", Typ := "expense", Color := "", Description := "",
    CreatedAt := 0, UpdatedAt := 0,
    Transactions := [{ ID := 0, Name := "x", Typ := "zzz", Color := "", Description := "",
                       CreatedAt := 0, UpdatedAt := 0 }] }

/-- A sequence of calls whose create carries a nested category of type
`income`. -/
def nestedCalls : List Call :=
  [ .create 5 (some { nestedPayload with
      Transactions := [{ ID := 0, Name := "x", Typ := "income", Color := "", Description := "",
                         CreatedAt := 0, UpdatedAt := 0 }] }) ]

/-! ## Helper lemmas -/

theorem bind_some (j : CategoryJSON) (hj : j.ID ≤ maxUint64) :
    ShouldBindJSON (some j) =
      some { ID := j.ID, Name := j.Name, Typ := j.Typ, Color := j.Color,
             Description := j.Description, CreatedAt := j.CreatedAt,
             UpdatedAt := j.UpdatedAt, DeletedAt := none } := by
  simp [ShouldBindJSON, hj]

theorem insert_ok_iff (eng : Category → Bool) (db : DB) (now : Nat) (c r : Category) (db1 : DB) :
    db.insert eng now c = .ok (r, db1) ↔
      (r = fillCreate db.seq now c ∧ r.ID ≤ maxUint64 ∧ (∀ x ∈ db.rows, x.ID ≠ r.ID) ∧
        eng r = true ∧ db1 = { rows := db.rows ++ [r], seq := max db.seq r.ID }) := by
  unfold DB.insert
  simp only []
  split_ifs with h1 h2 h3
  · simp only [reduceCtorEq, false_iff]
    rintro ⟨rfl, h, -⟩
    omega
  · simp only [reduceCtorEq, false_iff]
    rintro ⟨rfl, -, h, -⟩
    simp only [List.any_eq_true, beq_iff_eq] at h2
    obtain ⟨x, hx, hxe⟩ := h2
    exact h x hx hxe
  · simp only [reduceCtorEq, false_iff]
    rintro ⟨rfl, -, -, h, -⟩
    simp [h] at h3
  · simp only [Except.ok.injEq, Prod.mk.injEq]
    constructor
    · rintro ⟨rfl, rfl⟩
      refine ⟨rfl, by omega, ?_, by simpa using h3, rfl⟩
      intro x hx hxe
      apply h2
      simp only [List.any_eq_true, beq_iff_eq]
      exact ⟨x, hx, hxe⟩
    · rintro ⟨rfl, -, -, -, rfl⟩
      exact ⟨rfl, rfl⟩

theorem create_ok (eng : Category → Bool) (db : DB) (now : Nat) (c : Category)
    (nested : List Category) (r : Category) (d2 : DB) :
    db.Create eng now c nested = .ok (r, d2) ↔
      ∃ d1, db.insert eng now c = .ok (r, d1) ∧ d1.saveAll eng now nested = .ok d2 := by
  unfold DB.Create
  cases hi : db.insert eng now c with
  | error e => simp
  | ok p =>
    obtain ⟨r1, d1⟩ := p
    simp only []
    cases hs : d1.saveAll eng now nested with
    | error e =>
      simp only [reduceCtorEq, false_iff]
      rintro ⟨d, hd, hd2⟩
      simp only [Except.ok.injEq, Prod.mk.injEq] at hd
      rw [← hd.2, hs] at hd2
      cases hd2
    | ok d3 =>
      simp only [Except.ok.injEq, Prod.mk.injEq]
      constructor
      · rintro ⟨rfl, rfl⟩
        exact ⟨d1, ⟨rfl, rfl⟩, hs⟩
      · rintro ⟨d, ⟨rfl, rfl⟩, hd2⟩
        rw [hs] at hd2
        simp only [Except.ok.injEq] at hd2
        exact ⟨rfl, hd2⟩

theorem createCategory_valid (eng : Category → Bool) (db : DB) (now : Nat) (j : CategoryJSON)
    (hj : j.ID ≤ maxUint64) (ht : j.Typ = "income" ∨ j.Typ = "expense") :
    CreateCategory eng db now (some j) =
      match db.Create eng now (toCreate j) (associations (some j)) with
      | .error _ => (⟨500, .error "Failed to create category"⟩, db)
      | .ok (c, db1) => (⟨201, .data c⟩, db1) := by
  have hn : ¬ (j.Typ ≠ "income" ∧ j.Typ ≠ "expense") := by
    rintro ⟨h1, h2⟩
    rcases ht with h | h
    · exact h1 h
    · exact h2 h
  unfold CreateCategory
  rw [bind_some j hj]
  simp only [hn, if_false]
  by_cases hc : j.Color = ""
  · simp [toCreate, hc]
  · simp [toCreate, hc]

theorem createCategory_201 (eng : Category → Bool) (db : DB) (now : Nat) (j : CategoryJSON)
    (r : Category) (db1 : DB)
    (h : CreateCategory eng db now (some j) = (⟨201, .data r⟩, db1)) :
    j.ID ≤ maxUint64 ∧ (j.Typ = "income" ∨ j.Typ = "expense") ∧
      db.Create eng now (toCreate j) (associations (some j)) = .ok (r, db1) := by
  by_cases hj : j.ID ≤ maxUint64
  · by_cases ht : j.Typ = "income" ∨ j.Typ = "expense"
    · refine ⟨hj, ht, ?_⟩
      rw [createCategory_valid eng db now j hj ht] at h
      cases hc : db.Create eng now (toCreate j) (associations (some j)) with
      | error e => rw [hc] at h; simp at h
      | ok p =>
        obtain ⟨c, d⟩ := p
        rw [hc] at h
        simp only [Prod.mk.injEq, Response.mk.injEq, Body.data.injEq, true_and] at h
        rw [h.1, h.2]
    · exfalso
      have hn : j.Typ ≠ "income" ∧ j.Typ ≠ "expense" := by
        constructor
        · intro h1; exact ht (Or.inl h1)
        · intro h1; exact ht (Or.inr h1)
      unfold CreateCategory at h
      rw [bind_some j hj] at h
      simp [hn] at h
  · exfalso
    unfold CreateCategory at h
    simp [ShouldBindJSON, hj] at h

theorem first_append_new (rows : List Category) (r : Category)
    (hfresh : ∀ x ∈ rows, x.ID ≠ r.ID) (hv : r.DeletedAt = none) (seq : Nat) :
    DB.First { rows := rows ++ [r], seq := seq } r.ID = .ok r := by
  unfold DB.First
  have h1 : rows.find? (fun x => x.ID == r.ID && x.visible) = none := by
    rw [List.find?_eq_none]
    intro x hx
    simp [hfresh x hx]
  have h2 : (rows ++ [r]).find? (fun x => x.ID == r.ID && x.visible) = some r := by
    rw [List.find?_append, h1]
    simp [Category.visible, hv]
  simp only [h2]

theorem first_kept_insert (eng : Category → Bool) (d d1 : DB) (now : Nat) (c x : Category)
    (k : Nat) (r : Category) (hf : d.First k = .ok r)
    (h : d.insert eng now c = .ok (x, d1)) : d1.First k = .ok r := by
  obtain ⟨-, -, -, -, hdb⟩ := (insert_ok_iff eng d now c x d1).1 h
  unfold DB.First at hf ⊢
  cases hfind : d.rows.find? (fun r => r.ID == k && r.visible) with
  | none => rw [hfind] at hf; cases hf
  | some y =>
    rw [hfind] at hf
    rw [hdb]
    rw [List.find?_append, hfind]
    exact hf

theorem foldl_digits_ge (cs : List Char) (n : Nat) :
    n ≤ cs.foldl (fun n c => 10 * n + (c.toNat - 48)) n := by
  induction cs generalizing n with
  | nil => simp
  | cons c cs ih =>
    simp only [List.foldl_cons]
    exact le_trans (by omega) (ih (10 * n + (c.toNat - 48)))

theorem digitValue_digit (c : Char) (h : 48 ≤ c.toNat ∧ c.toNat ≤ 57) :
    digitValue c = some (c.toNat - 48) := by
  unfold digitValue
  rw [if_pos h]

theorem digitValue_other (c : Char) (h : ¬ (48 ≤ c.toNat ∧ c.toNat ≤ 57)) :
    digitValue c = none ∨ ∃ d, digitValue c = some d ∧ 10 ≤ d := by
  unfold digitValue
  rw [if_neg h]
  split_ifs with h1
  · right
    exact ⟨_, rfl, by omega⟩
  · left; rfl

theorem parseLoop_ok_iff (M : Nat) (hM : 10 * M + 9 < 2 ^ 64) (cs : List Char) (n v : Nat)
    (hn : n ≤ M) :
    parseLoop M cs n = .ok v ↔
      (cs.all isDecimalDigit = true ∧
        cs.foldl (fun n c => 10 * n + (c.toNat - 48)) n ≤ M ∧
        v = cs.foldl (fun n c => 10 * n + (c.toNat - 48)) n) := by
  induction cs generalizing n with
  | nil =>
    simp only [parseLoop, Except.ok.injEq, List.all_nil, List.foldl_nil, true_and]
    constructor
    · intro h; exact ⟨hn, h.symm⟩
    · intro h; exact h.2.symm
  | cons c cs ih =>
    unfold parseLoop
    by_cases hd : 48 ≤ c.toNat ∧ c.toNat ≤ 57
    · have hdig : isDecimalDigit c = true := by simp [isDecimalDigit, hd.1, hd.2]
      have hd10 : ¬ (c.toNat - 48 ≥ 10) := by omega
      have hcut : ¬ (n ≥ cutoff) := by
        simp only [cutoff, maxUint64]
        omega
      have e1 : n * 10 % 2 ^ 64 = n * 10 := Nat.mod_eq_of_lt (by omega)
      have e2 : (n * 10 + (c.toNat - 48)) % 2 ^ 64 = n * 10 + (c.toNat - 48) :=
        Nat.mod_eq_of_lt (by omega)
      rw [digitValue_digit c hd]
      simp only [hd10, if_false, hcut, e1, e2, List.all_cons, hdig,
        Bool.true_and, List.foldl_cons]
      have e3 : 10 * n + (c.toNat - 48) = n * 10 + (c.toNat - 48) := by omega
      rw [e3]
      by_cases hov : n * 10 + (c.toNat - 48) > M
      · have hlt : ¬ (n * 10 + (c.toNat - 48) < n * 10) := by omega
        simp only [hlt, hov, or_true, if_true, reduceCtorEq, false_iff]
        rintro ⟨-, hle, -⟩
        have := foldl_digits_ge cs (n * 10 + (c.toNat - 48))
        omega
      · have hlt : ¬ (n * 10 + (c.toNat - 48) < n * 10) := by omega
        simp only [hlt, hov, or_self, if_false]
        exact ih (n * 10 + (c.toNat - 48)) (by omega)
    · have hdig : isDecimalDigit c = false := by
        simp only [isDecimalDigit, Bool.and_eq_false_iff, decide_eq_false_iff_not]
        by_cases h1 : 48 ≤ c.toNat
        · right; intro h2; exact hd ⟨h1, h2⟩
        · left; exact h1
      simp only [List.all_cons, hdig, Bool.false_and, Bool.false_eq_true, false_and,
        iff_false]
      rcases digitValue_other c hd with h0 | ⟨d, h0, hd10⟩
      · rw [h0]; simp
      · rw [h0]
        simp only [ge_iff_le, hd10, if_true]
        simp

theorem parseUint32_ok_iff (s : String) (v : Nat) :
    ParseUint s 32 = .ok v ↔ (isUint32Literal s = true ∧ v = decimalValue s.data) := by
  unfold ParseUint isUint32Literal
  by_cases hs : s = ""
  · simp [hs]
  · have hne : (s != "") = true := by simp [hs]
    simp only [hs, if_false, hne, Bool.true_and, Bool.and_eq_true, decide_eq_true_eq]
    rw [parseLoop_ok_iff (2 ^ 32 - 1) (by norm_num) s.data 0 v (by norm_num)]
    simp only [decimalValue]
    constructor
    · rintro ⟨h1, h2, h3⟩
      exact ⟨⟨h1, by omega⟩, h3⟩
    · rintro ⟨⟨h1, h2⟩, h3⟩
      exact ⟨h1, by omega, h3⟩

theorem parseUint32_error_iff (s : String) :
    (∃ e, ParseUint s 32 = .error e) ↔ isUint32Literal s = false := by
  constructor
  · rintro ⟨e, he⟩
    by_contra hl
    have hl1 : isUint32Literal s = true := by simpa using hl
    have := (parseUint32_ok_iff s (decimalValue s.data)).2 ⟨hl1, rfl⟩
    rw [he] at this
    cases this
  · intro hl
    cases hp : ParseUint s 32 with
    | error e => exact ⟨e, rfl⟩
    | ok v =>
      have := ((parseUint32_ok_iff s v).1 hp).1
      rw [hl] at this
      cases this

theorem hit_iff (n : Nat) (r : Category) :
    (r.ID == n && r.visible) = true ↔ (r.ID = n ∧ r.DeletedAt = none) := by
  cases h : r.DeletedAt <;> simp [Category.visible, h]

theorem delete_eq (db : DB) (now n : Nat) :
    db.Delete now n =
      .ok ((db.rows.filter (fun r => r.ID == n && r.visible)).length,
           { rows := rowsAfterDelete db.rows now n, seq := db.seq }) := by
  unfold DB.Delete rowsAfterDelete
  simp only [Except.ok.injEq, Prod.mk.injEq, true_and, DB.mk.injEq, and_true]
  apply List.map_congr_left
  intro r _
  by_cases h : r.ID = n ∧ r.DeletedAt = none
  · have h1 := (hit_iff n r).2 h
    beta_reduce
    rw [if_pos h1, if_pos h]
  · have h1 : ¬ (r.ID == n && r.visible) = true := by
      rw [hit_iff]; exact h
    beta_reduce
    rw [if_neg h1, if_neg h]

theorem rowsAfterDelete_none (rows : List Category) (now n : Nat)
    (h : ∀ r ∈ rows, ¬ (r.ID = n ∧ r.DeletedAt = none)) :
    rowsAfterDelete rows now n = rows := by
  unfold rowsAfterDelete
  conv_rhs => rw [← List.map_id rows]
  apply List.map_congr_left
  intro r hr
  simp [h r hr]

theorem rowsAfterDelete_hidden (rows : List Category) (now n : Nat) :
    ∀ r ∈ rowsAfterDelete rows now n, ¬ (r.ID = n ∧ r.DeletedAt = none) := by
  intro r hr
  unfold rowsAfterDelete at hr
  rw [List.mem_map] at hr
  obtain ⟨x, -, hx⟩ := hr
  by_cases h : x.ID = n ∧ x.DeletedAt = none
  · simp only [h, and_self, if_true] at hx
    rw [← hx]
    simp
  · simp only [h, if_false] at hx
    rw [← hx]
    exact h

theorem filter_hit_length_zero_iff (rows : List Category) (n : Nat) :
    (rows.filter (fun r => r.ID == n && r.visible)).length = 0 ↔
      ∀ r ∈ rows, ¬ (r.ID = n ∧ r.DeletedAt = none) := by
  rw [List.length_eq_zero, List.filter_eq_nil_iff]
  constructor
  · intro h r hr hh
    exact h r hr ((hit_iff n r).2 hh)
  · intro h r hr hh
    exact h r hr ((hit_iff n r).1 hh)

theorem deleteCategory_eq (db : DB) (now : Nat) (id : String) (n : Nat)
    (hid : ParseUint id 32 = .ok n) :
    DeleteCategory db now id =
      if ∀ r ∈ db.rows, ¬ (r.ID = n ∧ r.DeletedAt = none) then (notFound, db)
      else (deleted, { rows := rowsAfterDelete db.rows now n, seq := db.seq }) := by
  unfold DeleteCategory
  rw [hid]
  simp only [delete_eq]
  by_cases h : ∀ r ∈ db.rows, ¬ (r.ID = n ∧ r.DeletedAt = none)
  · have h0 := (filter_hit_length_zero_iff db.rows n).2 h
    rw [if_pos h0, if_pos h, rowsAfterDelete_none db.rows now n h]
    rfl
  · have h0 : ¬ (db.rows.filter (fun r => r.ID == n && r.visible)).length = 0 := by
      rw [filter_hit_length_zero_iff]; exact h
    rw [if_neg h0, if_neg h]
    rfl

theorem first_error_iff (db : DB) (n : Nat) :
    (∃ e, db.First n = .error e) ↔ ∀ r ∈ db.rows, ¬ (r.ID = n ∧ r.DeletedAt = none) := by
  unfold DB.First
  cases hf : db.rows.find? (fun r => r.ID == n && r.visible) with
  | none =>
    simp only [Except.error.injEq, exists_eq', true_iff]
    rw [List.find?_eq_none] at hf
    intro r hr hh
    exact hf r hr ((hit_iff n r).2 hh)
  | some r =>
    simp only [reduceCtorEq, exists_false, false_iff]
    intro h
    have hm := List.mem_of_find?_eq_some hf
    have hp := List.find?_some hf
    exact h r hm ((hit_iff n r).1 hp)

theorem first_ok (db : DB) (n : Nat) (r : Category) (h : db.First n = .ok r) :
    r ∈ db.rows ∧ r.ID = n ∧ r.DeletedAt = none := by
  unfold DB.First at h
  cases hf : db.rows.find? (fun r => r.ID == n && r.visible) with
  | none => rw [hf] at h; cases h
  | some x =>
    rw [hf] at h
    simp only [Except.ok.injEq] at h
    subst h
    have hp := List.find?_some hf
    exact ⟨List.mem_of_find?_eq_some hf, (hit_iff n x).1 hp⟩

theorem updates_rows (db : DB) (now : Nat) (k : Nat) (u : Category) :
    db.rows.map (fun r => if (r.ID == k && r.visible) = true then assign now u r else r) =
      rowsAfterUpdate db.rows now k u := by
  unfold rowsAfterUpdate
  apply List.map_congr_left
  intro r _
  by_cases h : r.ID = k ∧ r.DeletedAt = none
  · have h1 := (hit_iff k r).2 h
    rw [if_pos h1, if_pos h]
  · have h1 : ¬ (r.ID == k && r.visible) = true := by
      rw [hit_iff]; exact h
    rw [if_neg h1, if_neg h]

theorem updates_ok (eng : Category → Bool) (db db1 : DB) (now : Nat) (model u m : Category)
    (h : db.Updates eng now model u = .ok (m, db1)) :
    m = assign now u model ∧
      db1.rows = rowsAfterUpdate db.rows now model.ID u ∧
      (u.ID ≠ 0 → u.ID ≠ model.ID →
        (∃ r ∈ db.rows, r.ID = model.ID ∧ r.DeletedAt = none) → ∀ x ∈ db.rows, x.ID ≠ u.ID) := by
  unfold DB.Updates at h
  by_cases h0 : model.ID = 0
  · rw [if_pos h0] at h; cases h
  · rw [if_neg h0] at h
    simp only [] at h
    by_cases h1 : u.ID ≠ 0 ∧ u.ID ≠ model.ID ∧
        (db.rows.any fun r => r.ID == model.ID && r.visible) = true ∧
        (db.rows.any fun x => x.ID == u.ID) = true
    · rw [if_pos h1] at h; cases h
    · rw [if_neg h1] at h
      by_cases h2 : ((db.rows.filter fun r => r.ID == model.ID && r.visible).any
          fun r => !eng (assign now u r)) = true
      · rw [if_pos h2] at h; cases h
      · rw [if_neg h2] at h
        simp only [Except.ok.injEq, Prod.mk.injEq] at h
        obtain ⟨hm, hdb⟩ := h
        refine ⟨hm.symm, ?_, ?_⟩
        · rw [← hdb]
          exact updates_rows db now model.ID u
        · intro hu0 hum ⟨r, hr, hh⟩ x hx hxe
          apply h1
          refine ⟨hu0, hum, ?_, ?_⟩
          · rw [List.any_eq_true]
            exact ⟨r, hr, (hit_iff model.ID r).2 hh⟩
          · rw [List.any_eq_true]
            exact ⟨x, hx, by simpa using hxe⟩

theorem bind_eq (body : Option CategoryJSON) (u : Category) (h : ShouldBindJSON body = some u) :
    ∃ j, body = some j ∧ j.ID ≤ maxUint64 ∧ u = bound j := by
  unfold ShouldBindJSON at h
  cases body with
  | none => cases h
  | some j =>
    simp only [] at h
    by_cases hj : j.ID ≤ maxUint64
    · rw [if_pos hj] at h
      simp only [Option.some.injEq] at h
      exact ⟨j, rfl, hj, h.symm⟩
    · rw [if_neg hj] at h; cases h

theorem updateCategory_cases (eng : Category → Bool) (db : DB) (now : Nat) (id : String)
    (body : Option CategoryJSON) :
    ((UpdateCategory eng db now id body).2 = db ∧
      (UpdateCategory eng db now id body).1.status ≠ 200) ∨
    ∃ n model j m db1,
      ParseUint id 32 = .ok n ∧ db.First n = .ok model ∧ body = some j ∧ j.ID ≤ maxUint64 ∧
      (j.Typ = "" ∨ j.Typ = "income" ∨ j.Typ = "expense") ∧
      db.Updates eng now model (bound j) = .ok (m, db1) ∧
      UpdateCategory eng db now id body = (⟨200, .data m⟩, db1) := by
  unfold UpdateCategory
  cases hp : ParseUint id 32 with
  | error e => left; simp
  | ok n =>
    simp only []
    cases hf : db.First n with
    | error e => left; simp
    | ok model =>
      simp only []
      cases hb : ShouldBindJSON body with
      | none => left; simp
      | some u =>
        simp only []
        obtain ⟨j, hbj, hj, hu⟩ := bind_eq body u hb
        by_cases ht : u.Typ ≠ "" ∧ u.Typ ≠ "income" ∧ u.Typ ≠ "expense"
        · left; rw [if_pos ht]; simp
        · rw [if_neg ht]
          cases hup : db.Updates eng now model u with
          | error e => left; simp
          | ok p =>
            obtain ⟨m, db1⟩ := p
            right
            refine ⟨n, model, j, m, db1, rfl, hf, hbj, hj, ?_, ?_, rfl⟩
            · have : u.Typ = j.Typ := by rw [hu]; rfl
              rw [this] at ht
              by_contra hc
              apply ht
              refine ⟨?_, ?_, ?_⟩
              · intro h; exact hc (Or.inl h)
              · intro h; exact hc (Or.inr (Or.inl h))
              · intro h; exact hc (Or.inr (Or.inr h))
            · rw [← hu]; exact hup

theorem find_map_of_agree (rows : List Category) (p q : Category → Bool)
    (f : Category → Category) (old : Category)
    (hfind : rows.find? p = some old) (hpq : ∀ x ∈ rows, q (f x) = p x) :
    (rows.map f).find? q = some (f old) := by
  induction rows with
  | nil => simp at hfind
  | cons x xs ih =>
    simp only [List.map_cons, List.find?_cons]
    rw [hpq x (List.mem_cons_self x xs)]
    simp only [List.find?_cons] at hfind
    cases hx : p x with
    | true =>
      rw [hx] at hfind
      simp only [Option.some.injEq] at hfind
      rw [hfind]
    | false =>
      rw [hx] at hfind
      exact ih hfind (fun y hy => hpq y (List.mem_cons_of_mem x hy))

theorem first_find (db : DB) (n : Nat) (old : Category) (h : db.First n = .ok old) :
    db.rows.find? (fun r => r.ID == n && r.visible) = some old := by
  unfold DB.First at h
  cases hf : db.rows.find? (fun r => r.ID == n && r.visible) with
  | none => rw [hf] at h; cases h
  | some x =>
    rw [hf] at h
    simp only [Except.ok.injEq] at h
    rw [h]

theorem assign_visible (now : Nat) (j : CategoryJSON) (r : Category) :
    (assign now (bound j) r).DeletedAt = r.DeletedAt := rfl

theorem first_after_update (eng : Category → Bool) (db db1 : DB) (now n : Nat)
    (old m : Category) (j : CategoryJSON)
    (hold : db.First n = .ok old)
    (hup : db.Updates eng now old (bound j) = .ok (m, db1)) :
    db1.First m.ID = .ok m := by
  obtain ⟨hm, hrows, hdup⟩ := updates_ok eng db db1 now old (bound j) m hup
  obtain ⟨hmem, hid, hvis⟩ := first_ok db n old hold
  have hfind := first_find db n old hold
  have hagree : ∀ x ∈ db.rows,
      (fun r : Category => r.ID == m.ID && r.visible)
        ((fun r : Category =>
          if r.ID = old.ID ∧ r.DeletedAt = none then assign now (bound j) r else r) x) =
      (fun r : Category => r.ID == n && r.visible) x := by
    intro x hx
    beta_reduce
    rw [hid]
    by_cases hh : x.ID = n ∧ x.DeletedAt = none
    · rw [if_pos hh]
      have h1 := (hit_iff n x).2 hh
      rw [h1, hit_iff]
      refine ⟨?_, ?_⟩
      · rw [hm]
        simp only [assign, hh.1, hid]
      · rw [assign_visible]; exact hh.2
    · rw [if_neg hh]
      have h1 : (x.ID == n && x.visible) = false := by
        rw [← Bool.not_eq_true, hit_iff]; exact hh
      rw [h1, ← Bool.not_eq_true, hit_iff]
      rintro ⟨hxid, hxv⟩
      rw [hm] at hxid
      by_cases hu0 : (bound j).ID = 0
      · apply hh
        refine ⟨?_, hxv⟩
        rw [hxid]
        simp only [assign, hu0, if_true, hid]
      · have hmid : (assign now (bound j) old).ID = (bound j).ID := by
          simp only [assign, hu0, if_false]
        rw [hmid] at hxid
        by_cases hun : (bound j).ID = old.ID
        · apply hh
          exact ⟨by rw [hxid, hun, hid], hxv⟩
        · exact hdup hu0 hun ⟨old, hmem, rfl, hvis⟩ x hx hxid
  have key := find_map_of_agree db.rows (fun r => r.ID == n && r.visible)
    (fun r => r.ID == m.ID && r.visible)
    (fun r => if r.ID = old.ID ∧ r.DeletedAt = none then assign now (bound j) r else r)
    old hfind hagree
  beta_reduce at key
  rw [if_pos ⟨rfl, hvis⟩, ← hm] at key
  unfold DB.First
  rw [hrows]
  unfold rowsAfterUpdate
  rw [key]

theorem createAll_induct (eng : Category → Bool) (P : DB → Prop) (now : Nat) (cs : List Category)
    (hstep : ∀ d c r d1, c ∈ cs → P d → d.insert eng now c = .ok (r, d1) → P d1) :
    ∀ (db db1 : DB) (rs : List Category), P db →
      db.CreateAll eng now cs = .ok (rs, db1) → P db1 := by
  induction cs with
  | nil =>
    intro db db1 rs hP h
    simp only [DB.CreateAll, Except.ok.injEq, Prod.mk.injEq] at h
    rw [← h.2]; exact hP
  | cons c cs ih =>
    intro db db1 rs hP h
    unfold DB.CreateAll at h
    cases hc : db.insert eng now c with
    | error e => rw [hc] at h; cases h
    | ok p =>
      obtain ⟨r, d1⟩ := p
      rw [hc] at h
      simp only [] at h
      have hP1 : P d1 := hstep db c r d1 (List.mem_cons_self c cs) hP hc
      cases hrest : d1.CreateAll eng now cs with
      | error e => rw [hrest] at h; cases h
      | ok q =>
        obtain ⟨rs1, d2⟩ := q
        rw [hrest] at h
        simp only [Except.ok.injEq, Prod.mk.injEq] at h
        rw [← h.2]
        exact ih (fun d c0 r0 d0 hc0 => hstep d c0 r0 d0 (List.mem_cons_of_mem c hc0))
          d1 d2 rs1 hP1 hrest

theorem seedData_cases (eng : Category → Bool) (db : DB) (now : Nat) :
    (SeedData eng db now).2 = db ∨
    ∃ rs, db.CreateAll eng now seedCategories = .ok (rs, (SeedData eng db now).2) := by
  unfold SeedData
  simp only []
  split_ifs with h0
  · cases hc : db.CreateAll eng now seedCategories with
    | error e => left; rfl
    | ok p =>
      obtain ⟨rs, d1⟩ := p
      right
      exact ⟨rs, rfl⟩
  · left; rfl

theorem saveNested_ok (eng : Category → Bool) (db : DB) (now : Nat) (c : Category) (d1 : DB)
    (h : db.saveNested eng now c = .ok d1) :
    d1 = db ∨ ∃ r, db.insert eng now c = .ok (r, d1) := by
  unfold DB.saveNested at h
  simp only [] at h
  by_cases h1 : (fillCreate db.seq now c).ID > maxUint64
  · rw [if_pos h1] at h; cases h
  · rw [if_neg h1] at h
    by_cases h2 : (!eng (fillCreate db.seq now c)) = true
    · rw [if_pos h2] at h; cases h
    · rw [if_neg h2] at h
      by_cases h3 : (db.rows.any fun x => x.ID == (fillCreate db.seq now c).ID) = true
      · rw [if_pos h3] at h
        simp only [Except.ok.injEq] at h
        left; exact h.symm
      · rw [if_neg h3] at h
        simp only [Except.ok.injEq] at h
        right
        refine ⟨fillCreate db.seq now c, ?_⟩
        unfold DB.insert
        simp only []
        rw [if_neg h1, if_neg h3, if_neg h2, h]

theorem saveAll_induct (eng : Category → Bool) (P : DB → Prop) (now : Nat) (cs : List Category)
    (hstep : ∀ d c r d1, c ∈ cs → P d → d.insert eng now c = .ok (r, d1) → P d1) :
    ∀ (db db1 : DB), P db → db.saveAll eng now cs = .ok db1 → P db1 := by
  induction cs with
  | nil =>
    intro db db1 hP h
    simp only [DB.saveAll, Except.ok.injEq] at h
    rw [← h]; exact hP
  | cons c cs ih =>
    intro db db1 hP h
    unfold DB.saveAll at h
    cases hc : db.saveNested eng now c with
    | error e => rw [hc] at h; cases h
    | ok d1 =>
      rw [hc] at h
      simp only [] at h
      have hP1 : P d1 := by
        rcases saveNested_ok eng db now c d1 hc with h0 | ⟨r, h0⟩
        · rw [h0]; exact hP
        · exact hstep db c r d1 (List.mem_cons_self c cs) hP h0
      exact ih (fun d c0 r0 d0 hc0 => hstep d c0 r0 d0 (List.mem_cons_of_mem c hc0))
        d1 db1 hP1 h

theorem createCategory_cases (eng : Category → Bool) (db : DB) (now : Nat)
    (body : Option CategoryJSON) :
    (CreateCategory eng db now body).2 = db ∨
    ∃ j r d1, body = some j ∧ (j.Typ = "income" ∨ j.Typ = "expense") ∧
      db.insert eng now (toCreate j) = .ok (r, d1) ∧
      d1.saveAll eng now (associations body) = .ok (CreateCategory eng db now body).2 := by
  cases body with
  | none => left; rfl
  | some j =>
    by_cases hj : j.ID ≤ maxUint64
    · by_cases ht : j.Typ = "income" ∨ j.Typ = "expense"
      · rw [createCategory_valid eng db now j hj ht]
        cases hc : db.Create eng now (toCreate j) (associations (some j)) with
        | error e => left; rfl
        | ok p =>
          obtain ⟨r, d2⟩ := p
          obtain ⟨d1, hi, hs⟩ := (create_ok eng db now _ _ r d2).1 hc
          right
          exact ⟨j, r, d1, rfl, ht, hi, hs⟩
      · left
        have hn : j.Typ ≠ "income" ∧ j.Typ ≠ "expense" :=
          ⟨fun h => ht (Or.inl h), fun h => ht (Or.inr h)⟩
        unfold CreateCategory
        rw [bind_some j hj]
        simp [hn]
    · left
      unfold CreateCategory
      simp [ShouldBindJSON, hj]

theorem deleteCategory_cases (db : DB) (now : Nat) (id : String) :
    (DeleteCategory db now id).2 = db ∨
    ∃ n, (DeleteCategory db now id).2 = { rows := rowsAfterDelete db.rows now n, seq := db.seq } := by
  cases hp : ParseUint id 32 with
  | error e => left; unfold DeleteCategory; rw [hp]
  | ok n =>
    rw [deleteCategory_eq db now id n hp]
    split_ifs
    · left; rfl
    · right; exact ⟨n, rfl⟩

theorem seed_mem_valid (c : Category) (hc : c ∈ seedCategories) :
    (c.Typ = "income" ∨ c.Typ = "expense") ∧ c.DeletedAt = none := by
  simp only [seedCategories, List.mem_cons, List.mem_singleton, List.not_mem_nil, or_false] at hc
  rcases hc with h | h | h | h | h | h | h | h <;> (rw [h]; simp)

/-- A property of the table that every successful store statement issued by a
call preserves is preserved by the call. -/
theorem apply_preserves (eng : Category → Bool) (P : DB → Prop) (call : Call)
    (hcreate : ∀ d now c r d1, (c.Typ = "income" ∨ c.Typ = "expense") → c.DeletedAt = none →
      P d → d.insert eng now c = .ok (r, d1) → P d1)
    (hnested : ∀ d now c r d1, c ∈ call.nested → P d → d.insert eng now c = .ok (r, d1) → P d1)
    (hupdate : ∀ d now n old j m d1, P d → d.First n = .ok old →
      (j.Typ = "" ∨ j.Typ = "income" ∨ j.Typ = "expense") →
      d.Updates eng now old (bound j) = .ok (m, d1) → P d1)
    (hdelete : ∀ d now n, P d → P { rows := rowsAfterDelete d.rows now n, seq := d.seq })
    (db : DB) (hP : P db) : P (call.apply eng db) := by
  cases call with
  | seed now =>
    simp only [Call.apply]
    rcases seedData_cases eng db now with h | ⟨rs, h⟩
    · rw [h]; exact hP
    · exact createAll_induct eng P now seedCategories
        (fun d c r d1 hc hd hcr =>
          hcreate d now c r d1 (seed_mem_valid c hc).1 (seed_mem_valid c hc).2 hd hcr)
        db _ rs hP h
  | create now body =>
    simp only [Call.apply]
    rcases createCategory_cases eng db now body with h | ⟨j, r, d1, -, ht, hi, hs⟩
    · rw [h]; exact hP
    · have hP1 : P d1 := hcreate db now (toCreate j) r d1 ht rfl hP hi
      exact saveAll_induct eng P now (associations body)
        (fun d c r0 d0 hc hd h0 => hnested d now c r0 d0 hc hd h0) d1 _ hP1 hs
  | update now id body =>
    simp only [Call.apply]
    rcases updateCategory_cases eng db now id body with ⟨h, -⟩ | ⟨n, old, j, m, d1, -, hf, -, -, ht, hup, heq⟩
    · rw [h]; exact hP
    · rw [heq]
      exact hupdate db now n old j m d1 hP hf ht hup
  | delete now id =>
    simp only [Call.apply]
    rcases deleteCategory_cases db now id with h | ⟨n, h⟩
    · rw [h]; exact hP
    · rw [h]; exact hdelete db now n hP

theorem runCalls_preserves (eng : Category → Bool) (P : DB → Prop)
    (calls : List Call)
    (hstep : ∀ db call, call ∈ calls → P db → P (Call.apply eng db call)) :
    ∀ db, P db → P (runCalls eng db calls) := by
  induction calls with
  | nil => intro db h; exact h
  | cons c cs ih =>
    intro db h
    simp only [runCalls, List.foldl_cons]
    exact ih (fun d c0 hc0 hd => hstep d c0 (List.mem_cons_of_mem c hc0) hd) _
      (hstep db c (List.mem_cons_self c cs) h)

theorem valid_create (eng : Category → Bool) (d : DB) (now : Nat) (c r : Category) (d1 : DB)
    (ht : c.Typ = "income" ∨ c.Typ = "expense") (hv : validTable d)
    (h : d.insert eng now c = .ok (r, d1)) : validTable d1 := by
  obtain ⟨hr, -, -, -, hdb⟩ := (insert_ok_iff eng d now c r d1).1 h
  intro x hx
  rw [hdb] at hx
  simp only [List.mem_append, List.mem_singleton] at hx
  rcases hx with hx | hx
  · exact hv x hx
  · rw [hx, hr]
    refine ⟨ht, ?_⟩
    simp only [fillCreate, colorDefault]
    split_ifs with h0
    · decide
    · exact h0

theorem valid_update (eng : Category → Bool) (d : DB) (now : Nat) (old : Category)
    (j : CategoryJSON) (m : Category) (d1 : DB)
    (hv : validTable d) (ht : j.Typ = "" ∨ j.Typ = "income" ∨ j.Typ = "expense")
    (h : d.Updates eng now old (bound j) = .ok (m, d1)) : validTable d1 := by
  obtain ⟨-, hrows, -⟩ := updates_ok eng d d1 now old (bound j) m h
  intro x hx
  rw [hrows] at hx
  unfold rowsAfterUpdate at hx
  rw [List.mem_map] at hx
  obtain ⟨y, hy, hyx⟩ := hx
  have hvy := hv y hy
  split_ifs at hyx with hh
  · rw [← hyx]
    refine ⟨?_, ?_⟩
    · simp only [assign, bound]
      split_ifs with h0
      · exact hvy.1
      · rcases ht with h1 | h1
        · exact absurd h1 h0
        · exact h1
    · simp only [assign, bound]
      split_ifs with h0
      · exact hvy.2
      · exact h0
  · rw [← hyx]; exact hvy

theorem valid_delete (d : DB) (now n : Nat) (hv : validTable d) :
    validTable { rows := rowsAfterDelete d.rows now n, seq := d.seq } := by
  intro x hx
  simp only [rowsAfterDelete, List.mem_map] at hx
  obtain ⟨y, hy, hyx⟩ := hx
  have hvy := hv y hy
  split_ifs at hyx with hh
  · rw [← hyx]; exact hvy
  · rw [← hyx]; exact hvy

theorem valid_insert_checked (eng : Category → Bool)
    (hE : ∀ r, eng r = true → (r.Typ = "income" ∨ r.Typ = "expense"))
    (d : DB) (now : Nat) (c r : Category) (d1 : DB) (hv : validTable d)
    (h : d.insert eng now c = .ok (r, d1)) : validTable d1 := by
  obtain ⟨hr, -, -, he, hdb⟩ := (insert_ok_iff eng d now c r d1).1 h
  intro x hx
  rw [hdb] at hx
  simp only [List.mem_append, List.mem_singleton] at hx
  rcases hx with hx | hx
  · exact hv x hx
  · rw [hx]
    refine ⟨hE r he, ?_⟩
    rw [hr]
    simp only [fillCreate, colorDefault]
    split_ifs with h0
    · decide
    · exact h0

theorem valid_apply_plain (eng : Category → Bool) (db : DB) (call : Call)
    (hplain : call.nested = []) (hv : validTable db) : validTable (call.apply eng db) :=
  apply_preserves eng validTable call
    (fun d now c r d1 ht _ hd h => valid_create eng d now c r d1 ht hd h)
    (fun d now c r d1 hc _ _ => by rw [hplain] at hc; cases hc)
    (fun d now _ old j m d1 hd _ ht h => valid_update eng d now old j m d1 hd ht h)
    (fun d now n hd => valid_delete d now n hd)
    db hv

theorem valid_apply_checked (eng : Category → Bool)
    (hE : ∀ r, eng r = true → (r.Typ = "income" ∨ r.Typ = "expense"))
    (db : DB) (call : Call) (hv : validTable db) : validTable (call.apply eng db) :=
  apply_preserves eng validTable call
    (fun d now c r d1 ht _ hd h => valid_create eng d now c r d1 ht hd h)
    (fun d now c r d1 _ hd h => valid_insert_checked eng hE d now c r d1 hd h)
    (fun d now _ old j m d1 hd _ ht h => valid_update eng d now old j m d1 hd ht h)
    (fun d now n hd => valid_delete d now n hd)
    db hv

theorem retired_create (eng : Category → Bool) (n : Nat) (dead : Category) (d : DB) (now : Nat)
    (c r : Category) (d1 : DB) (hk : keyRetired n dead d)
    (h : d.insert eng now c = .ok (r, d1)) : keyRetired n dead d1 := by
  obtain ⟨-, -, hfresh, -, hdb⟩ := (insert_ok_iff eng d now c r d1).1 h
  obtain ⟨hid, hmem, hall⟩ := hk
  refine ⟨hid, ?_, ?_⟩
  · rw [hdb]; exact List.mem_append_left _ hmem
  · intro x hx hxn
    rw [hdb] at hx
    simp only [List.mem_append, List.mem_singleton] at hx
    rcases hx with hx | hx
    · exact hall x hx hxn
    · exfalso
      apply hfresh dead hmem
      rw [hid, ← hxn, hx]

theorem retired_update (eng : Category → Bool) (n : Nat) (dead : Category) (d : DB) (now k : Nat)
    (old : Category) (j : CategoryJSON) (m : Category) (d1 : DB) (hk : keyRetired n dead d)
    (hf : d.First k = .ok old)
    (h : d.Updates eng now old (bound j) = .ok (m, d1)) : keyRetired n dead d1 := by
  obtain ⟨-, hrows, hdup⟩ := updates_ok eng d d1 now old (bound j) m h
  obtain ⟨hom, hok, hov⟩ := first_ok d k old hf
  obtain ⟨hid, hmem, hall⟩ := hk
  have hdead : dead.DeletedAt ≠ none := hall dead hmem hid
  refine ⟨hid, ?_, ?_⟩
  · rw [hrows]
    unfold rowsAfterUpdate
    rw [List.mem_map]
    refine ⟨dead, hmem, ?_⟩
    rw [if_neg (fun hh => hdead hh.2)]
  · intro x hx hxn
    rw [hrows] at hx
    unfold rowsAfterUpdate at hx
    rw [List.mem_map] at hx
    obtain ⟨y, hy, hyx⟩ := hx
    split_ifs at hyx with hh
    · exfalso
      have hyvis : y.DeletedAt = none := hh.2
      have hxid : (assign now (bound j) y).ID = n := by rw [hyx]; exact hxn
      by_cases hu0 : (bound j).ID = 0
      · have : (assign now (bound j) y).ID = y.ID := by simp only [assign, hu0, if_true]
        rw [this] at hxid
        exact hall y hy hxid hyvis
      · have : (assign now (bound j) y).ID = (bound j).ID := by simp only [assign, hu0, if_false]
        rw [this] at hxid
        by_cases hun : (bound j).ID = old.ID
        · apply hall y hy _ hyvis
          rw [hh.1, ← hun, hxid]
        · apply hdup hu0 hun ⟨old, hom, rfl, hov⟩ dead hmem
          rw [hid, hxid]
    · rw [← hyx] at hxn ⊢
      exact hall y hy hxn

theorem retired_delete (n : Nat) (dead : Category) (d : DB) (now k : Nat)
    (hk : keyRetired n dead d) :
    keyRetired n dead { rows := rowsAfterDelete d.rows now k, seq := d.seq } := by
  obtain ⟨hid, hmem, hall⟩ := hk
  have hdead : dead.DeletedAt ≠ none := hall dead hmem hid
  refine ⟨hid, ?_, ?_⟩
  · simp only [rowsAfterDelete, List.mem_map]
    refine ⟨dead, hmem, ?_⟩
    rw [if_neg (fun hh => hdead hh.2)]
  · intro x hx hxn
    simp only [rowsAfterDelete, List.mem_map] at hx
    obtain ⟨y, hy, hyx⟩ := hx
    split_ifs at hyx with hh
    · rw [← hyx]; simp
    · rw [← hyx] at hxn ⊢
      exact hall y hy hxn

theorem retired_apply (eng : Category → Bool) (n : Nat) (dead : Category) (db : DB) (call : Call)
    (hk : keyRetired n dead db) : keyRetired n dead (call.apply eng db) :=
  apply_preserves eng (keyRetired n dead) call
    (fun d now c r d1 _ _ hd h => retired_create eng n dead d now c r d1 hd h)
    (fun d now c r d1 _ hd h => retired_create eng n dead d now c r d1 hd h)
    (fun d now k old j m d1 hd hf _ h => retired_update eng n dead d now k old j m d1 hd hf h)
    (fun d now k hd => retired_delete n dead d now k hd)
    db hk

theorem retired_after_delete (db : DB) (now n : Nat) (row : Category)
    (hrow : db.First n = .ok row) :
    keyRetired n { row with DeletedAt := some now }
      { rows := rowsAfterDelete db.rows now n, seq := db.seq } := by
  obtain ⟨hmem, hid, hvis⟩ := first_ok db n row hrow
  refine ⟨hid, ?_, ?_⟩
  · simp only [rowsAfterDelete, List.mem_map]
    refine ⟨row, hmem, ?_⟩
    rw [if_pos ⟨hid, hvis⟩]
  · intro x hx hxn hxv
    exact rowsAfterDelete_hidden db.rows now n x hx ⟨hxn, hxv⟩

theorem seed_empty (now : Nat) :
    SeedData schemaEnforce DB.empty now = (none, { rows := seedRows now, seq := 8 }) := by
  simp +decide [SeedData, DB.Count, DB.empty, DB.CreateAll, DB.insert, seedCategories, fillCreate,
    schemaEnforce, maxUint64, seedRows, colorDefault]

theorem count_zero_iff (db : DB) :
    (db.rows.filter Category.visible).length = 0 ↔ ∀ r ∈ db.rows, r.DeletedAt ≠ none := by
  rw [List.length_eq_zero, List.filter_eq_nil_iff]
  constructor
  · intro h r hr hn
    apply h r hr
    simp [Category.visible, hn]
  · intro h r hr hv
    apply h r hr
    cases hd : r.DeletedAt with
    | none => rfl
    | some t => simp [Category.visible, hd] at hv

theorem seed_noop (eng : Category → Bool) (db : DB) (now : Nat)
    (h : ∃ r ∈ db.rows, r.DeletedAt = none) : SeedData eng db now = (none, db) := by
  have hc : ¬ (db.rows.filter Category.visible).length = 0 := by
    rw [count_zero_iff]
    obtain ⟨r, hr, hn⟩ := h
    exact fun hall => hall r hr hn
  unfold SeedData
  simp only [DB.Count]
  rw [if_neg hc]

theorem seed_insert (eng : Category → Bool) (db : DB) (now : Nat)
    (h : ∀ r ∈ db.rows, r.DeletedAt ≠ none) :
    SeedData eng db now =
      match db.CreateAll eng now seedCategories with
      | .error e => (some e, db)
      | .ok (_, db1) => (none, db1) := by
  have hc : (db.rows.filter Category.visible).length = 0 := (count_zero_iff db).2 h
  unfold SeedData
  simp only [DB.Count]
  rw [if_pos hc]

theorem fill_preset (seq now : Nat) (c : Category) :
    (fillCreate seq now c).preset = (fillCreate 0 0 c).preset := rfl

theorem createAll_rows (eng : Category → Bool) (now : Nat) (cs : List Category) :
    ∀ (db db1 : DB) (rs : List Category), db.CreateAll eng now cs = .ok (rs, db1) →
      db1.rows = db.rows ++ rs ∧
      rs.map Category.preset = (cs.map (fillCreate 0 0)).map Category.preset := by
  induction cs with
  | nil =>
    intro db db1 rs h
    simp only [DB.CreateAll, Except.ok.injEq, Prod.mk.injEq] at h
    rw [← h.1, ← h.2]
    simp
  | cons c cs ih =>
    intro db db1 rs h
    unfold DB.CreateAll at h
    cases hc : db.insert eng now c with
    | error e => rw [hc] at h; cases h
    | ok p =>
      obtain ⟨r, d1⟩ := p
      rw [hc] at h
      simp only [] at h
      cases hrest : d1.CreateAll eng now cs with
      | error e => rw [hrest] at h; cases h
      | ok q =>
        obtain ⟨rs1, d2⟩ := q
        rw [hrest] at h
        simp only [Except.ok.injEq, Prod.mk.injEq] at h
        obtain ⟨hr, -, -, -, hd1⟩ := (insert_ok_iff eng db now c r d1).1 hc
        obtain ⟨h1, h2⟩ := ih d1 d2 rs1 hrest
        rw [← h.1, ← h.2, h1, hd1]
        refine ⟨by simp, ?_⟩
        simp only [List.map_cons, h2, hr, fill_preset db.seq now c]

theorem seed_presets :
    (seedCategories.map (fillCreate 0 0)).map Category.preset =
      seedCategories.map Category.preset := by
  decide

theorem digitChar_toNat (d : Nat) (h : d < 10) : (Char.ofNat (48 + d)).toNat = 48 + d := by
  interval_cases d <;> rfl

theorem foldr_digitChars (l : List Nat) (hl : ∀ d ∈ l, d < 10) :
    l.foldr (fun d y => 10 * y + ((Char.ofNat (48 + d)).toNat - 48)) 0 = Nat.ofDigits 10 l := by
  induction l with
  | nil => simp
  | cons d l ih =>
    have hd : d < 10 := hl d (List.mem_cons_self d l)
    have ih1 := ih (fun x hx => hl x (List.mem_cons_of_mem d hx))
    simp only [List.foldr_cons, Nat.ofDigits_cons, ih1, digitChar_toNat d hd]
    omega

theorem decimal_parse (n : Nat) (hn : n ≤ 4294967295) : ParseUint (decimal n) 32 = .ok n := by
  rw [parseUint32_ok_iff]
  by_cases h0 : n = 0
  · subst h0
    decide
  · have hlt : ∀ d ∈ Nat.digits 10 n, d < 10 := fun d hd => Nat.digits_lt_base (by norm_num) hd
    have hne : Nat.digits 10 n ≠ [] := Nat.digits_ne_nil_iff_ne_zero.2 h0
    have hval : decimalValue (decimal n).data = n := by
      simp only [decimal, h0, if_false, decimalValue, List.foldl_map, List.foldl_reverse]
      rw [foldr_digitChars _ hlt, Nat.ofDigits_digits]
    refine ⟨?_, hval.symm⟩
    unfold isUint32Literal
    rw [hval]
    simp only [Bool.and_eq_true, bne_iff_ne, ne_eq, decide_eq_true_eq]
    refine ⟨⟨?_, ?_⟩, hn⟩
    · simp only [decimal, h0, if_false]
      intro hs
      have := congrArg String.data hs
      simp only [List.map_eq_nil_iff, List.reverse_eq_nil_iff] at this
      exact hne this
    · simp only [decimal, h0, if_false, List.all_eq_true, List.mem_map, List.mem_reverse]
      rintro c ⟨d, hd, rfl⟩
      have := digitChar_toNat d (hlt d hd)
      simp only [isDecimalDigit, this, Bool.and_eq_true, decide_eq_true_eq]
      have := hlt d hd
      omega

theorem schemaEnforce_checks (r : Category) (h : schemaEnforce r = true) :
    r.Typ = "income" ∨ r.Typ = "expense" := by
  unfold schemaEnforce at h
  simp only [Bool.and_eq_true, Bool.or_eq_true, beq_iff_eq, decide_eq_true_eq] at h
  exact h.1.1.1.2

theorem color_insert (eng : Category → Bool) (d : DB) (now : Nat) (c r : Category) (d1 : DB)
    (hv : colorTable d) (h : d.insert eng now c = .ok (r, d1)) : colorTable d1 := by
  obtain ⟨hr, -, -, -, hdb⟩ := (insert_ok_iff eng d now c r d1).1 h
  intro x hx
  rw [hdb] at hx
  simp only [List.mem_append, List.mem_singleton] at hx
  rcases hx with hx | hx
  · exact hv x hx
  · rw [hx, hr]
    simp only [fillCreate, colorDefault]
    split_ifs with h0
    · decide
    · exact h0

theorem color_update (eng : Category → Bool) (d : DB) (now : Nat) (old : Category)
    (j : CategoryJSON) (m : Category) (d1 : DB) (hv : colorTable d)
    (h : d.Updates eng now old (bound j) = .ok (m, d1)) : colorTable d1 := by
  obtain ⟨-, hrows, -⟩ := updates_ok eng d d1 now old (bound j) m h
  intro x hx
  rw [hrows] at hx
  unfold rowsAfterUpdate at hx
  rw [List.mem_map] at hx
  obtain ⟨y, hy, hyx⟩ := hx
  have hvy := hv y hy
  split_ifs at hyx with hh
  · rw [← hyx]
    simp only [assign, bound]
    split_ifs with h0
    · exact hvy
    · exact h0
  · rw [← hyx]; exact hvy

theorem color_delete (d : DB) (now n : Nat) (hv : colorTable d) :
    colorTable { rows := rowsAfterDelete d.rows now n, seq := d.seq } := by
  intro x hx
  simp only [rowsAfterDelete, List.mem_map] at hx
  obtain ⟨y, hy, hyx⟩ := hx
  have hvy := hv y hy
  split_ifs at hyx with hh
  · rw [← hyx]; exact hvy
  · rw [← hyx]; exact hvy

theorem color_apply (eng : Category → Bool) (db : DB) (call : Call) (hv : colorTable db) :
    colorTable (call.apply eng db) :=
  apply_preserves eng colorTable call
    (fun d now c r d1 _ _ hd h => color_insert eng d now c r d1 hd h)
    (fun d now c r d1 _ hd h => color_insert eng d now c r d1 hd h)
    (fun d now _ old j m d1 hd _ _ h => color_update eng d now old j m d1 hd h)
    (fun d now n hd => color_delete d now n hd)
    db hv

theorem rows_extend_insert (eng : Category → Bool) (base : List Category) (d : DB) (now : Nat)
    (c x : Category) (d1 : DB) (hd : ∃ extra, d.rows = base ++ extra)
    (h : d.insert eng now c = .ok (x, d1)) : ∃ extra, d1.rows = base ++ extra := by
  obtain ⟨-, -, -, -, hdb⟩ := (insert_ok_iff eng d now c x d1).1 h
  obtain ⟨extra, he⟩ := hd
  exact ⟨extra ++ [x], by rw [hdb, he, List.append_assoc]⟩

theorem associations_nil (j : CategoryJSON) (h1 : j.Transactions = []) (h2 : j.Budgets = []) :
    associations (some j) = [] := by
  simp [associations, h1, h2]

/-! ## The claims -/

/-- C1. For every body that binds: a type other than `income` and `expense`
(the empty string, `invalid`, `Income`, ` expense` among them) is answered
with 400 and the table is left as it was; a type that is `income` or `expense`
is not answered with the type rejection, the answer then being 201 or the 500
of a failed insert. -/
theorem C1_create_type_check (eng : Category → Bool) (db : DB) (now : Nat) (j : CategoryJSON)
    (hj : j.ID ≤ maxUint64) :
    ((j.Typ ≠ "income" ∧ j.Typ ≠ "expense") →
        CreateCategory eng db now (some j) = (invalidType, db)) ∧
    ((j.Typ = "income" ∨ j.Typ = "expense") →
        (CreateCategory eng db now (some j)).1 ≠ invalidType ∧
        ((CreateCategory eng db now (some j)).1.status = 201 ∨
          (CreateCategory eng db now (some j)).1.status = 500)) := by
  constructor
  · intro hn
    unfold CreateCategory
    rw [bind_some j hj]
    simp [hn, invalidType]
  · intro ht
    rw [createCategory_valid eng db now j hj ht]
    cases db.Create eng now (toCreate j) (associations (some j)) with
    | error e => simp [invalidType]
    | ok p => simp [invalidType]

/-- Witness for C1: the types of the claim on the empty table, and `expense`
accepted there. -/
theorem C1_create_type_check_witness :
    CreateCategory schemaEnforce DB.empty 5 (some (payload "Test" "invalid" "")) = (invalidType, DB.empty) ∧
    CreateCategory schemaEnforce DB.empty 5 (some (payload "Test" "" "")) = (invalidType, DB.empty) ∧
    CreateCategory schemaEnforce DB.empty 5 (some (payload "Test" "Income" "")) = (invalidType, DB.empty) ∧
    CreateCategory schemaEnforce DB.empty 5 (some (payload "Test" " expense" "")) = (invalidType, DB.empty) ∧
    (CreateCategory schemaEnforce DB.empty 5 (some (payload "Test" "expense" ""))).1.status = 201 :=
  ⟨(C1_create_type_check schemaEnforce DB.empty 5 (payload "Test" "invalid" "") (by decide)).1 (by decide),
   (C1_create_type_check schemaEnforce DB.empty 5 (payload "Test" "" "") (by decide)).1 (by decide),
   (C1_create_type_check schemaEnforce DB.empty 5 (payload "Test" "Income" "") (by decide)).1 (by decide),
   (C1_create_type_check schemaEnforce DB.empty 5 (payload "Test" " expense" "") (by decide)).1 (by decide),
   by decide⟩

/-- C2, counterexample. On the seeded table, whose counter stands at 8, the
body `chosenIDPayload` is answered with 201 and a record of id 5000: the id of
the body, not one the store generated. The same body without an id is given
the generated id 9. -/
theorem C2_create_default_color_counterexample :
    (CreateCategory schemaEnforce seeded 5 (some chosenIDPayload)).1 =
      ⟨201, .data { ID := 5000, Name := "Test", Typ := "expense", Color := "#6B7280",
                    Description := "", CreatedAt := 5, UpdatedAt := 5, DeletedAt := none }⟩ ∧
    chosenIDPayload.ID = 5000 ∧ seeded.seq + 1 = 9 ∧
    (CreateCategory schemaEnforce seeded 5 (some (payload "Test" "expense" ""))).1 =
      ⟨201, .data { ID := 9, Name := "Test", Typ := "expense", Color := "#6B7280",
                    Description := "", CreatedAt := 5, UpdatedAt := 5, DeletedAt := none }⟩ := by
  decide

/-- C2, amended. For every body that binds with type `income` or `expense`, a
create that the store does not fail answers 201 with a record that is stored
in the table after the earlier rows; when the body carries no nested records
it is the only new row. That record has the name and type of the body; its
color is `#6B7280` when the body's color is empty and the body's color
otherwise; its id is positive and is the key of no earlier row: the next value
of the table's counter when the body carries no id, and the id of the body
when it carries one. -/
theorem C2_create_default_color (eng : Category → Bool) (db : DB) (now : Nat) (j : CategoryJSON)
    (hj : j.ID ≤ maxUint64) (ht : j.Typ = "income" ∨ j.Typ = "expense")
    (hok : (CreateCategory eng db now (some j)).1.status ≠ 500) :
    ∃ (r : Category) (db1 : DB),
      CreateCategory eng db now (some j) = (⟨201, .data r⟩, db1) ∧
      (∃ extra, db1.rows = db.rows ++ r :: extra) ∧
      (j.Transactions = [] → j.Budgets = [] →
        db1 = { rows := db.rows ++ [r], seq := max db.seq r.ID }) ∧
      (j.Color = "" → r.Color = "#6B7280") ∧
      (j.Color ≠ "" → r.Color = j.Color) ∧
      r.Name = j.Name ∧ r.Typ = j.Typ ∧
      0 < r.ID ∧ (∀ x ∈ db.rows, x.ID ≠ r.ID) ∧
      (j.ID = 0 → r.ID = db.seq + 1) ∧ (j.ID ≠ 0 → r.ID = j.ID) ∧ r.DeletedAt = none := by
  rw [createCategory_valid eng db now j hj ht] at hok ⊢
  cases hc : db.Create eng now (toCreate j) (associations (some j)) with
  | error e => rw [hc] at hok; simp at hok
  | ok p =>
    obtain ⟨r, db1⟩ := p
    obtain ⟨d1, hi, hs⟩ := (create_ok eng db now _ _ r db1).1 hc
    obtain ⟨hr, -, hfresh, -, hdb⟩ := (insert_ok_iff eng db now _ r d1).1 hi
    have hext : ∃ extra, db1.rows = (db.rows ++ [r]) ++ extra :=
      saveAll_induct eng (fun d => ∃ extra, d.rows = (db.rows ++ [r]) ++ extra) now
        (associations (some j))
        (fun d c x d0 _ hd h0 => rows_extend_insert eng (db.rows ++ [r]) d now c x d0 hd h0)
        d1 db1 ⟨[], by rw [hdb]; simp⟩ hs
    refine ⟨r, db1, rfl, ?_, ?_, ?_, ?_, ?_, ?_, ?_, hfresh, ?_, ?_, ?_⟩
    · obtain ⟨extra, he⟩ := hext
      exact ⟨extra, by rw [he]; simp⟩
    · intro h1 h2
      rw [associations_nil j h1 h2] at hs
      simp only [DB.saveAll, Except.ok.injEq] at hs
      rw [← hs, hdb]
    · intro h0; rw [hr]; simp [fillCreate, toCreate, h0]
    · intro h0; rw [hr]; simp [fillCreate, toCreate, h0]
    · rw [hr]; rfl
    · rw [hr]; rfl
    · rw [hr]
      simp only [fillCreate, toCreate]
      split_ifs with h0
      · omega
      · omega
    · intro h0; rw [hr]; simp [fillCreate, toCreate, h0]
    · intro h0; rw [hr]; simp [fillCreate, toCreate, h0]
    · rw [hr]; rfl

/-- Witness for C2: the body of the claim, type `expense`, name `Test`, no
color, on the empty table. -/
theorem C2_create_default_color_witness :
    ∃ (r : Category) (db1 : DB),
      CreateCategory schemaEnforce DB.empty 5 (some (payload "Test" "expense" "")) =
        (⟨201, .data r⟩, db1) ∧
      (∃ extra, db1.rows = DB.empty.rows ++ r :: extra) ∧
      ((payload "Test" "expense" "").Transactions = [] →
        (payload "Test" "expense" "").Budgets = [] →
        db1 = { rows := DB.empty.rows ++ [r], seq := max DB.empty.seq r.ID }) ∧
      ((payload "Test" "expense" "").Color = "" → r.Color = "#6B7280") ∧
      ((payload "Test" "expense" "").Color ≠ "" → r.Color = (payload "Test" "expense" "").Color) ∧
      r.Name = (payload "Test" "expense" "").Name ∧ r.Typ = (payload "Test" "expense" "").Typ ∧
      0 < r.ID ∧ (∀ x ∈ DB.empty.rows, x.ID ≠ r.ID) ∧
      ((payload "Test" "expense" "").ID = 0 → r.ID = DB.empty.seq + 1) ∧
      ((payload "Test" "expense" "").ID ≠ 0 → r.ID = (payload "Test" "expense" "").ID) ∧
      r.DeletedAt = none :=
  C2_create_default_color schemaEnforce DB.empty 5 (payload "Test" "expense" "")
    (by decide) (by decide) (by decide)

/-- C3, counterexample. On an engine that does not enforce the `check`
constraint, `CreateCategory` on the empty table with the body `nestedPayload`
answers 201 and the table then holds a category of type `zzz`: the handler
checks the type of the category itself, not of a category nested in one of its
transactions. An engine that enforces the constraint fails the same create and
the table stays empty. -/
theorem C3_store_invariant_counterexample :
    CreateCategory sizesEnforce DB.empty 5 (some nestedPayload) =
      (⟨201, .data { ID := 1, Name := "Test", Typ := "expense", Color := "#6B7280",
                     Description := "", CreatedAt := 5, UpdatedAt := 5, DeletedAt := none }⟩,
       { rows := [{ ID := 1, Name := "Test", Typ := "expense", Color := "#6B7280",
                    Description := "", CreatedAt := 5, UpdatedAt := 5, DeletedAt := none },
                  { ID := 2, Name := "x", Typ := "zzz", Color := "#6B7280",
                    Description := "", CreatedAt := 5, UpdatedAt := 5, DeletedAt := none }],
         seq := 2 }) ∧
    (∃ r ∈ (runCalls sizesEnforce DB.empty [.create 5 (some nestedPayload)]).rows,
      ¬ (r.Typ = "income" ∨ r.Typ = "expense")) ∧
    CreateCategory schemaEnforce DB.empty 5 (some nestedPayload) =
      (⟨500, .error "Failed to create category"⟩, DB.empty) := by
  decide

/-- C3, amended. In every table reached from the empty table by a sequence of
`SeedData`, `CreateCategory`, `UpdateCategory` and `DeleteCategory` calls every
row, soft-deleted or not, has a color that is not empty, whatever the engine
enforces and whatever the bodies carry; and every row has type `income` or
`expense` when the engine enforces the `check` constraint on the type or when
no body of a create carries nested records. On any table of rows with such a
type and color a call of `UpdateCategory`, whatever the engine, its path id
and its body, leaves a table of such rows. -/
theorem C3_store_invariant (eng : Category → Bool) (calls : List Call) :
    (∀ r ∈ (runCalls eng DB.empty calls).rows, r.Color ≠ "") ∧
    (((∀ r, eng r = true → (r.Typ = "income" ∨ r.Typ = "expense")) ∨
        (∀ call ∈ calls, call.nested = [])) →
      ∀ r ∈ (runCalls eng DB.empty calls).rows,
        (r.Typ = "income" ∨ r.Typ = "expense") ∧ r.Color ≠ "") ∧
    (∀ (db : DB) (now : Nat) (id : String) (body : Option CategoryJSON),
        (∀ r ∈ db.rows, (r.Typ = "income" ∨ r.Typ = "expense") ∧ r.Color ≠ "") →
        ∀ r ∈ (UpdateCategory eng db now id body).2.rows,
          (r.Typ = "income" ∨ r.Typ = "expense") ∧ r.Color ≠ "") := by
  refine ⟨?_, ?_, ?_⟩
  · exact runCalls_preserves eng colorTable calls (fun d c _ h => color_apply eng d c h)
      DB.empty (fun r hr => by simp [DB.empty] at hr)
  · rintro (hE | hplain)
    · exact runCalls_preserves eng validTable calls
        (fun d c _ h => valid_apply_checked eng hE d c h)
        DB.empty (fun r hr => by simp [DB.empty] at hr)
    · exact runCalls_preserves eng validTable calls
        (fun d c hc h => valid_apply_plain eng d c (hplain c hc) h)
        DB.empty (fun r hr => by simp [DB.empty] at hr)
  · intro db now id body hv
    exact valid_apply_plain eng db (.update now id body) rfl hv

/-- Witness for C3: the ninth row after `sampleCalls`, whose bodies carry no
nested records, and the nested row after `nestedCalls` on the engine of the
schema, which enforces the `check` constraint. -/
theorem C3_store_invariant_witness :
    (({ ID := 9, Name := "Renamed", Typ := "expense", Color := "#6B7280", Description := "",
        CreatedAt := 2, UpdatedAt := 3, DeletedAt := none } : Category) ∈
      (runCalls schemaEnforce DB.empty sampleCalls).rows ∧
    (("expense" : String) = "income" ∨ ("expense" : String) = "expense") ∧
      ("#6B7280" : String) ≠ "") ∧
    (({ ID := 2, Name := "x", Typ := "income", Color := "#6B7280", Description := "",
        CreatedAt := 5, UpdatedAt := 5, DeletedAt := none } : Category) ∈
      (runCalls schemaEnforce DB.empty nestedCalls).rows ∧
    (("income" : String) = "income" ∨ ("income" : String) = "expense") ∧
      ("#6B7280" : String) ≠ "") :=
  ⟨⟨by decide,
    (C3_store_invariant schemaEnforce sampleCalls).2.1 (Or.inr (by decide))
      { ID := 9, Name := "Renamed", Typ := "expense", Color := "#6B7280", Description := "",
        CreatedAt := 2, UpdatedAt := 3, DeletedAt := none } (by decide)⟩,
   ⟨by decide,
    (C3_store_invariant schemaEnforce nestedCalls).2.1 (Or.inl schemaEnforce_checks)
      { ID := 2, Name := "x", Typ := "income", Color := "#6B7280", Description := "",
        CreatedAt := 5, UpdatedAt := 5, DeletedAt := none } (by decide)⟩⟩

/-- C4, counterexample. On the empty table the body `wideIDPayload` is
accepted with 201 and the returned record has id 4294967296; `GetCategory` on
that id right afterwards answers 400, not 200, and no path parameter at all
makes it answer 200. -/
theorem C4_roundtrip_counterexample :
    (CreateCategory schemaEnforce DB.empty 5 (some wideIDPayload)).1 =
      ⟨201, .data { ID := 4294967296, Name := "Test", Typ := "expense", Color := "#6B7280",
                    Description := "", CreatedAt := 5, UpdatedAt := 5, DeletedAt := none }⟩ ∧
    GetCategory (CreateCategory schemaEnforce DB.empty 5 (some wideIDPayload)).2 "4294967296" =
      invalidID ∧
    ∀ id : String,
      (GetCategory (CreateCategory schemaEnforce DB.empty 5 (some wideIDPayload)).2 id).status ≠
        200 := by
  refine ⟨by decide, by decide, ?_⟩
  intro id
  have hdb : (CreateCategory schemaEnforce DB.empty 5 (some wideIDPayload)).2 =
      { rows := [{ ID := 4294967296, Name := "Test", Typ := "expense", Color := "#6B7280",
                   Description := "", CreatedAt := 5, UpdatedAt := 5, DeletedAt := none }],
        seq := 4294967296 } := by
    decide
  rw [hdb]
  unfold GetCategory
  cases hp : ParseUint id 32 with
  | error e => simp
  | ok v =>
    have hv : v ≤ 4294967295 := by
      obtain ⟨hl, hval⟩ := (parseUint32_ok_iff id v).1 hp
      unfold isUint32Literal at hl
      simp only [Bool.and_eq_true, decide_eq_true_eq] at hl
      omega
    have hne : ¬ (4294967296 = v) := by omega
    simp [DB.First, hne]

/-- C4, amended. For every body that `CreateCategory` accepts with 201 and
whose returned record has an id of at most 4294967295, `GetCategory` on the
table right afterwards, called with the decimal numeral of that id or with any
other path parameter that parses to it, answers 200 with exactly the returned
record; its name and type are those of the body and its color is the body's,
or `#6B7280` when the body's is empty. -/
theorem C4_roundtrip (eng : Category → Bool) (db db1 : DB) (now : Nat) (j : CategoryJSON)
    (r : Category)
    (hc : CreateCategory eng db now (some j) = (⟨201, .data r⟩, db1))
    (hle : r.ID ≤ 4294967295) :
    GetCategory db1 (decimal r.ID) = ⟨200, .data r⟩ ∧
      (∀ id : String, ParseUint id 32 = .ok r.ID → GetCategory db1 id = ⟨200, .data r⟩) ∧
      r.Name = j.Name ∧ r.Typ = j.Typ ∧
      r.Color = (if j.Color = "" then "#6B7280" else j.Color) := by
  obtain ⟨-, -, hcr⟩ := createCategory_201 eng db now j r db1 hc
  obtain ⟨d1, hi, hs⟩ := (create_ok eng db now _ _ r db1).1 hcr
  obtain ⟨hr, -, hfresh, -, hdb⟩ := (insert_ok_iff eng db now _ r d1).1 hi
  have hv : r.DeletedAt = none := by rw [hr]; rfl
  have hfirst1 : d1.First r.ID = .ok r := by
    rw [hdb]; exact first_append_new db.rows r hfresh hv _
  have hfirst : db1.First r.ID = .ok r :=
    saveAll_induct eng (fun d => d.First r.ID = .ok r) now (associations (some j))
      (fun d c x d0 _ hd h0 => first_kept_insert eng d d0 now c x r.ID r hd h0) d1 db1 hfirst1 hs
  have hget : ∀ id : String, ParseUint id 32 = .ok r.ID →
      GetCategory db1 id = ⟨200, .data r⟩ := by
    intro id hid
    unfold GetCategory
    rw [hid]
    simp only [hfirst]
  refine ⟨hget _ (decimal_parse r.ID hle), hget, by rw [hr]; rfl, by rw [hr]; rfl, ?_⟩
  rw [hr]
  simp only [fillCreate, toCreate, colorDefault]
  by_cases h0 : j.Color = ""
  · simp [h0]
  · simp [h0]

/-- Witness for C4: the body of name `Test`, type `expense` and no color on the
empty table is read back under its id 1. -/
theorem C4_roundtrip_witness :
    GetCategory (CreateCategory schemaEnforce DB.empty 5 (some (payload "Test" "expense" ""))).2
        (decimal testRecord.ID) = ⟨200, .data testRecord⟩ ∧
      (∀ id : String, ParseUint id 32 = .ok testRecord.ID →
        GetCategory (CreateCategory schemaEnforce DB.empty 5
          (some (payload "Test" "expense" ""))).2 id = ⟨200, .data testRecord⟩) ∧
      testRecord.Name = (payload "Test" "expense" "").Name ∧
      testRecord.Typ = (payload "Test" "expense" "").Typ ∧
      testRecord.Color = (if (payload "Test" "expense" "").Color = "" then "#6B7280"
        else (payload "Test" "expense" "").Color) :=
  C4_roundtrip schemaEnforce DB.empty
    (CreateCategory schemaEnforce DB.empty 5 (some (payload "Test" "expense" ""))).2 5
    (payload "Test" "expense" "") testRecord (by decide) (by decide)

/-- C5. For every category in scope under key `n` and every body `j` that
`UpdateCategory` answers with 200, the returned record is the stored row, read
back under its key, and each of its name, type, color and description is the
old value when that member of the body is empty and the member of the body
otherwise. Hence a body without a color leaves the color as it was, and no
body turns a non-empty text field into an empty one. Rows outside the scope of
key `n` are not touched. -/
theorem C5_partial_update (eng : Category → Bool) (db : DB) (now : Nat) (id : String) (n : Nat)
    (old : Category) (j : CategoryJSON)
    (hid : ParseUint id 32 = .ok n) (hold : db.First n = .ok old)
    (h200 : (UpdateCategory eng db now id (some j)).1.status = 200) :
    ∃ m db1, UpdateCategory eng db now id (some j) = (⟨200, .data m⟩, db1) ∧
      db1.First m.ID = .ok m ∧
      m.Name = (if j.Name = "" then old.Name else j.Name) ∧
      m.Typ = (if j.Typ = "" then old.Typ else j.Typ) ∧
      m.Color = (if j.Color = "" then old.Color else j.Color) ∧
      m.Description = (if j.Description = "" then old.Description else j.Description) ∧
      (old.Name ≠ "" → m.Name ≠ "") ∧ (old.Typ ≠ "" → m.Typ ≠ "") ∧
      (old.Color ≠ "" → m.Color ≠ "") ∧ (old.Description ≠ "" → m.Description ≠ "") ∧
      (∀ r ∈ db.rows, ¬ (r.ID = n ∧ r.DeletedAt = none) → r ∈ db1.rows) := by
  rcases updateCategory_cases eng db now id (some j) with ⟨-, hne⟩ | h
  · exact absurd h200 hne
  · obtain ⟨n1, model, j1, m, db1, hp, hf, hb, -, -, hup, heq⟩ := h
    rw [hid] at hp
    simp only [Except.ok.injEq] at hp
    subst hp
    rw [hold] at hf
    simp only [Except.ok.injEq] at hf
    subst hf
    simp only [Option.some.injEq] at hb
    subst hb
    obtain ⟨hm, hrows, -⟩ := updates_ok eng db db1 now old (bound j) m hup
    refine ⟨m, db1, heq, first_after_update eng db db1 now n old m j hold hup,
      by rw [hm]; rfl, by rw [hm]; rfl, by rw [hm]; rfl, by rw [hm]; rfl, ?_, ?_, ?_, ?_, ?_⟩
    · intro h0; rw [hm]; simp only [assign, bound]; split_ifs with hj0
      · exact h0
      · exact hj0
    · intro h0; rw [hm]; simp only [assign, bound]; split_ifs with hj0
      · exact h0
      · exact hj0
    · intro h0; rw [hm]; simp only [assign, bound]; split_ifs with hj0
      · exact h0
      · exact hj0
    · intro h0; rw [hm]; simp only [assign, bound]; split_ifs with hj0
      · exact h0
      · exact hj0
    · intro r hr hnot
      rw [hrows]
      unfold rowsAfterUpdate
      rw [List.mem_map]
      have hoid := (first_ok db n old hold).2.1
      refine ⟨r, hr, ?_⟩
      rw [hoid, if_neg hnot]

/-- Witness for C5: renaming the first seeded category keeps its type, color
and description. -/
theorem C5_partial_update_witness :
    ∃ m db1, UpdateCategory schemaEnforce seeded 9 "1" (some renamePayload) =
        (⟨200, .data m⟩, db1) ∧
      db1.First m.ID = .ok m ∧
      m.Name = (if renamePayload.Name = "" then firstSeed.Name else renamePayload.Name) ∧
      m.Typ = (if renamePayload.Typ = "" then firstSeed.Typ else renamePayload.Typ) ∧
      m.Color = (if renamePayload.Color = "" then firstSeed.Color else renamePayload.Color) ∧
      m.Description = (if renamePayload.Description = "" then firstSeed.Description
        else renamePayload.Description) ∧
      (firstSeed.Name ≠ "" → m.Name ≠ "") ∧ (firstSeed.Typ ≠ "" → m.Typ ≠ "") ∧
      (firstSeed.Color ≠ "" → m.Color ≠ "") ∧ (firstSeed.Description ≠ "" → m.Description ≠ "") ∧
      (∀ r ∈ seeded.rows, ¬ (r.ID = 1 ∧ r.DeletedAt = none) → r ∈ db1.rows) :=
  C5_partial_update schemaEnforce seeded 9 "1" 1 firstSeed renamePayload rfl rfl (by decide)

/-- C6. For every category `row` in scope under path id `n`, `DeleteCategory`
answers 200 and leaves a table with as many rows as before, in which the rows
in scope under `n` have their `deleted_at` set and nothing else changed. In
that table, and in every table reached from it by any further sequence of
calls, the row `row` with its `deleted_at` set is still present, `GetCategory`
on the same path id answers 404, and `GetCategories` lists no category with
id `n`. -/
theorem C6_soft_delete (eng : Category → Bool) (db : DB) (now : Nat) (id : String) (n : Nat)
    (row : Category) (hid : ParseUint id 32 = .ok n) (hrow : db.First n = .ok row) :
    DeleteCategory db now id =
      (deleted,
       { rows := db.rows.map (fun r =>
           if r.ID = n ∧ r.DeletedAt = none then { r with DeletedAt := some now } else r),
         seq := db.seq }) ∧
    (DeleteCategory db now id).2.rows.length = db.rows.length ∧
    ∀ calls : List Call,
      { row with DeletedAt := some now } ∈
        (runCalls eng (DeleteCategory db now id).2 calls).rows ∧
      GetCategory (runCalls eng (DeleteCategory db now id).2 calls) id = notFound ∧
      ∃ data, GetCategories (runCalls eng (DeleteCategory db now id).2 calls) =
          ⟨200, .list data data.length⟩ ∧
        ∀ c ∈ data, c.ID ≠ n := by
  obtain ⟨hmem, hrid, hvis⟩ := first_ok db n row hrow
  have hex : ¬ ∀ r ∈ db.rows, ¬ (r.ID = n ∧ r.DeletedAt = none) :=
    fun h => h row hmem ⟨hrid, hvis⟩
  have heq : DeleteCategory db now id =
      (deleted, { rows := rowsAfterDelete db.rows now n, seq := db.seq }) := by
    rw [deleteCategory_eq db now id n hid, if_neg hex]
  refine ⟨heq, ?_, ?_⟩
  · rw [heq]
    simp [rowsAfterDelete]
  · intro calls
    rw [heq]
    have hk := runCalls_preserves eng (keyRetired n { row with DeletedAt := some now }) calls
      (fun d c _ h => retired_apply eng n _ d c h) _
      (retired_after_delete db now n row hrow)
    obtain ⟨-, hdm, hall⟩ := hk
    refine ⟨hdm, ?_, ?_⟩
    · obtain ⟨e, he⟩ := (first_error_iff _ n).2 (fun r hr hh => hall r hr hh.1 hh.2)
      unfold GetCategory
      rw [hid]
      simp only [he, notFound]
    · refine ⟨_, rfl, ?_⟩
      intro c hc hcn
      rw [List.mem_filter] at hc
      have hv : c.DeletedAt = none := by
        have := hc.2
        cases hd : c.DeletedAt with
        | none => rfl
        | some t => simp [Category.visible, hd] at this
      exact hall c hc.1 hcn hv

/-- Witness for C6: deleting the first seeded category, then running
`sampleCalls` and a create that asks for id 1. -/
theorem C6_soft_delete_witness :
    DeleteCategory seeded 9 "1" =
      (deleted,
       { rows := seeded.rows.map (fun r =>
           if r.ID = 1 ∧ r.DeletedAt = none then { r with DeletedAt := some 9 } else r),
         seq := seeded.seq }) ∧
    (DeleteCategory seeded 9 "1").2.rows.length = seeded.rows.length ∧
    ∀ calls : List Call,
      { firstSeed with DeletedAt := some 9 } ∈
        (runCalls schemaEnforce (DeleteCategory seeded 9 "1").2 calls).rows ∧
      GetCategory (runCalls schemaEnforce (DeleteCategory seeded 9 "1").2 calls) "1" = notFound ∧
      ∃ data, GetCategories (runCalls schemaEnforce (DeleteCategory seeded 9 "1").2 calls) =
          ⟨200, .list data data.length⟩ ∧
        ∀ c ∈ data, c.ID ≠ 1 :=
  C6_soft_delete schemaEnforce seeded 9 "1" 1 firstSeed rfl rfl

/-- C7. For every identifier that parses as an unsigned 32-bit integer `n`,
`DeleteCategory` answers either 404 or 200, never 500; it answers 404 exactly
when no row with key `n` is in scope (the key was never assigned, or its row
is already soft-deleted), and then the table is unchanged; and after an answer
of 200 a second delete of the same identifier answers 404 and changes
nothing. -/
theorem C7_delete_not_found (db : DB) (now now2 : Nat) (id : String) (n : Nat)
    (hid : ParseUint id 32 = .ok n) :
    ((DeleteCategory db now id).1 = notFound ∨ (DeleteCategory db now id).1 = deleted) ∧
    ((DeleteCategory db now id).1.status = 404 ↔
        ¬ ∃ r ∈ db.rows, r.ID = n ∧ r.DeletedAt = none) ∧
    ((DeleteCategory db now id).1.status = 404 → (DeleteCategory db now id).2 = db) ∧
    ((DeleteCategory db now id).1.status = 200 →
        DeleteCategory (DeleteCategory db now id).2 now2 id =
          (notFound, (DeleteCategory db now id).2)) := by
  rw [deleteCategory_eq db now id n hid]
  by_cases h : ∀ r ∈ db.rows, ¬ (r.ID = n ∧ r.DeletedAt = none)
  · rw [if_pos h]
    refine ⟨Or.inl rfl, ?_, fun _ => rfl, ?_⟩
    · simp only [notFound, true_iff]
      rintro ⟨r, hr, hh⟩
      exact h r hr hh
    · intro h2
      simp [notFound] at h2
  · rw [if_neg h]
    refine ⟨Or.inr rfl, ?_, ?_, ?_⟩
    · simp only [deleted]
      constructor
      · intro h2; simp at h2
      · intro h2
        exfalso
        apply h
        intro r hr hh
        exact h2 ⟨r, hr, hh⟩
    · intro h2
      simp [deleted] at h2
    · intro _
      rw [deleteCategory_eq _ now2 id n hid]
      rw [if_pos (rowsAfterDelete_hidden db.rows now n)]

/-- Witness for C7: on the seeded table the identifier `999999` is answered
with 404 and the identifier `1` with 200 and then 404. -/
theorem C7_delete_not_found_witness :
    (DeleteCategory seeded 9 "999999").1 = notFound ∧
    (DeleteCategory seeded 9 "999999").2 = seeded ∧
    (DeleteCategory seeded 9 "1").1 = deleted ∧
    DeleteCategory (DeleteCategory seeded 9 "1").2 10 "1" =
      (notFound, (DeleteCategory seeded 9 "1").2) :=
  ⟨by decide,
   (C7_delete_not_found seeded 9 10 "999999" 999999 rfl).2.2.1 (by decide),
   by decide,
   (C7_delete_not_found seeded 9 10 "1" 1 rfl).2.2.2 (by decide)⟩

/-- C8. For `GetCategory`, `UpdateCategory` and `DeleteCategory` alike: a path
identifier that is not a non-empty string of ASCII decimal digits denoting a
value of at most 4294967295 is answered with 400 `Invalid category ID` and the
table is returned as it was, whatever the table and the body are; an
identifier that is such a string is never answered with that error. -/
theorem C8_identifier_parsing (eng : Category → Bool) (db : DB) (now : Nat) (id : String)
    (body : Option CategoryJSON) :
    (isUint32Literal id = false →
        GetCategory db id = invalidID ∧
        UpdateCategory eng db now id body = (invalidID, db) ∧
        DeleteCategory db now id = (invalidID, db)) ∧
    (isUint32Literal id = true →
        (GetCategory db id).body ≠ .error "Invalid category ID" ∧
        (UpdateCategory eng db now id body).1.body ≠ .error "Invalid category ID" ∧
        (DeleteCategory db now id).1.body ≠ .error "Invalid category ID") := by
  constructor
  · intro hl
    obtain ⟨e, he⟩ := (parseUint32_error_iff id).2 hl
    simp [GetCategory, UpdateCategory, DeleteCategory, he, invalidID]
  · intro hl
    have hp := (parseUint32_ok_iff id (decimalValue id.data)).2 ⟨hl, rfl⟩
    refine ⟨?_, ?_, ?_⟩
    · unfold GetCategory
      rw [hp]
      simp only []
      cases db.First (decimalValue id.data) <;> simp
    · unfold UpdateCategory
      rw [hp]
      simp only []
      cases db.First (decimalValue id.data) with
      | error e => simp
      | ok c =>
        simp only []
        cases ShouldBindJSON body with
        | none => simp
        | some u =>
          simp only []
          split_ifs
          · simp
          · cases db.Updates eng now c u <;> simp
    · unfold DeleteCategory
      rw [hp]
      simp only []
      cases db.Delete now (decimalValue id.data) with
      | error e => simp
      | ok p =>
        simp only []
        split_ifs <;> simp

/-- Witness for C8: the identifiers of the claim on the seeded table, and the
largest identifier that parses. -/
theorem C8_identifier_parsing_witness :
    (GetCategory seeded "abc" = invalidID ∧
      UpdateCategory schemaEnforce seeded 9 "abc" none = (invalidID, seeded) ∧
      DeleteCategory seeded 9 "abc" = (invalidID, seeded)) ∧
    (GetCategory seeded "" = invalidID ∧
      UpdateCategory schemaEnforce seeded 9 "" none = (invalidID, seeded) ∧
      DeleteCategory seeded 9 "" = (invalidID, seeded)) ∧
    (GetCategory seeded "-1" = invalidID ∧
      UpdateCategory schemaEnforce seeded 9 "-1" none = (invalidID, seeded) ∧
      DeleteCategory seeded 9 "-1" = (invalidID, seeded)) ∧
    (GetCategory seeded "+1" = invalidID ∧
      UpdateCategory schemaEnforce seeded 9 "+1" none = (invalidID, seeded) ∧
      DeleteCategory seeded 9 "+1" = (invalidID, seeded)) ∧
    (GetCategory seeded "1.0" = invalidID ∧
      UpdateCategory schemaEnforce seeded 9 "1.0" none = (invalidID, seeded) ∧
      DeleteCategory seeded 9 "1.0" = (invalidID, seeded)) ∧
    (GetCategory seeded "4294967296" = invalidID ∧
      UpdateCategory schemaEnforce seeded 9 "4294967296" none = (invalidID, seeded) ∧
      DeleteCategory seeded 9 "4294967296" = (invalidID, seeded)) ∧
    ((GetCategory seeded "4294967295").body ≠ .error "Invalid category ID" ∧
      (UpdateCategory schemaEnforce seeded 9 "4294967295" none).1.body ≠
        .error "Invalid category ID" ∧
      (DeleteCategory seeded 9 "4294967295").1.body ≠ .error "Invalid category ID") :=
  ⟨(C8_identifier_parsing schemaEnforce seeded 9 "abc" none).1 (by decide),
   (C8_identifier_parsing schemaEnforce seeded 9 "" none).1 (by decide),
   (C8_identifier_parsing schemaEnforce seeded 9 "-1" none).1 (by decide),
   (C8_identifier_parsing schemaEnforce seeded 9 "+1" none).1 (by decide),
   (C8_identifier_parsing schemaEnforce seeded 9 "1.0" none).1 (by decide),
   (C8_identifier_parsing schemaEnforce seeded 9 "4294967296" none).1 (by decide),
   (C8_identifier_parsing schemaEnforce seeded 9 "4294967295" none).2 (by decide)⟩

/-- C9, counterexample. The table `onlyDeleted` holds exactly one row and that
row is soft-deleted; `SeedData` on it does not leave it as it was but inserts
the eight starter categories after that row. -/
theorem C9_seed_counterexample :
    onlyDeleted.rows.length = 1 ∧ (∀ r ∈ onlyDeleted.rows, r.DeletedAt ≠ none) ∧
    (SeedData schemaEnforce onlyDeleted 5).2 ≠ onlyDeleted ∧
    (SeedData schemaEnforce onlyDeleted 5).2.rows.length = 9 ∧
    (GetCategories (SeedData schemaEnforce onlyDeleted 5).2).body =
      .list ((seedRows 5).map (fun r => { r with ID := r.ID + 1 })) 8 := by
  decide

/-- C9, amended. `SeedData` looks only at the rows in scope. On the empty table
it returns no error and leaves exactly the eight starter categories, six of
type `expense` and two of type `income`, which `GetCategories` then lists. On a
table with at least one row in scope it changes nothing. On a table with no
row in scope, soft-deleted rows or not, a `SeedData` that returns no error has
appended eight rows with the preset names, types, colors and descriptions. And
after a `SeedData` that returned no error a second `SeedData` changes
nothing. -/
theorem C9_seed (eng : Category → Bool) (db : DB) (now now2 : Nat) :
    (SeedData schemaEnforce DB.empty now = (none, { rows := seedRows now, seq := 8 }) ∧
      GetCategories { rows := seedRows now, seq := 8 } = ⟨200, .list (seedRows now) 8⟩ ∧
      ((seedRows now).filter (fun r => r.Typ = "expense")).length = 6 ∧
      ((seedRows now).filter (fun r => r.Typ = "income")).length = 2) ∧
    ((∃ r ∈ db.rows, r.DeletedAt = none) → SeedData eng db now = (none, db)) ∧
    ((∀ r ∈ db.rows, r.DeletedAt ≠ none) → (SeedData eng db now).1 = none →
      ∃ rs, (SeedData eng db now).2.rows = db.rows ++ rs ∧
        rs.map Category.preset = seedCategories.map Category.preset) ∧
    ((SeedData eng db now).1 = none →
      SeedData eng (SeedData eng db now).2 now2 = (none, (SeedData eng db now).2)) := by
  have hC : (∀ r ∈ db.rows, r.DeletedAt ≠ none) → (SeedData eng db now).1 = none →
      ∃ rs, (SeedData eng db now).2.rows = db.rows ++ rs ∧
        rs.map Category.preset = seedCategories.map Category.preset := by
    intro hall hnone
    rw [seed_insert eng db now hall] at hnone ⊢
    cases hc : db.CreateAll eng now seedCategories with
    | error e => rw [hc] at hnone; simp at hnone
    | ok p =>
      obtain ⟨rs, d1⟩ := p
      obtain ⟨h1, h2⟩ := createAll_rows eng now seedCategories db d1 rs hc
      exact ⟨rs, h1, by rw [h2, seed_presets]⟩
  refine ⟨⟨seed_empty now, ?_, ?_, ?_⟩, seed_noop eng db now, hC, ?_⟩
  · simp [GetCategories, DB.Find, seedRows, Category.visible]
  · simp +decide [seedRows]
  · simp +decide [seedRows]
  · intro hnone
    by_cases hvis : ∃ r ∈ db.rows, r.DeletedAt = none
    · rw [seed_noop eng db now hvis]
      exact seed_noop eng db now2 hvis
    · have hall : ∀ r ∈ db.rows, r.DeletedAt ≠ none := by
        intro r hr hn
        exact hvis ⟨r, hr, hn⟩
      obtain ⟨rs, h1, h2⟩ := hC hall hnone
      apply seed_noop
      have hlen : rs.length = 8 := by
        have := congrArg List.length h2
        simpa [seedCategories] using this
      cases rs with
      | nil => simp at hlen
      | cons r rs1 =>
        refine ⟨r, ?_, ?_⟩
        · rw [h1]; simp
        · have h3 := congrArg List.head? h2
          simp only [List.map_cons, List.head?_cons, seedCategories, Option.some.injEq,
            Category.preset, Prod.mk.injEq] at h3
          exact h3.2.2.2.2

/-- Witness for C9: `SeedData` on the seeded table, which has rows in scope,
and on `onlyDeleted`, which has none. -/
theorem C9_seed_witness :
    SeedData schemaEnforce seeded 5 = (none, seeded) ∧
    (∃ rs, (SeedData schemaEnforce onlyDeleted 5).2.rows = onlyDeleted.rows ++ rs ∧
      rs.map Category.preset = seedCategories.map Category.preset) ∧
    SeedData schemaEnforce (SeedData schemaEnforce onlyDeleted 5).2 6 =
      (none, (SeedData schemaEnforce onlyDeleted 5).2) :=
  ⟨(C9_seed schemaEnforce seeded 5 6).2.1 (by decide),
   (C9_seed schemaEnforce onlyDeleted 5 6).2.2.1 (by decide) (by decide),
   (C9_seed schemaEnforce onlyDeleted 5 6).2.2.2 (by decide)⟩

/-- C10, counterexample. On the seeded table `UpdateCategory` on path id `1`
with the body `moveIDPayload` answers 200 with a record whose id is 77, and
`GetCategory` on path id `1` afterwards answers 404: the row has moved to key
77. -/
theorem C10_update_identity_counterexample :
    (UpdateCategory schemaEnforce seeded 9 "1" (some moveIDPayload)).1 =
      ⟨200, .data { firstSeed with ID := 77, UpdatedAt := 9 }⟩ ∧
    GetCategory (UpdateCategory schemaEnforce seeded 9 "1" (some moveIDPayload)).2 "1" =
      notFound ∧
    GetCategory (UpdateCategory schemaEnforce seeded 9 "1" (some moveIDPayload)).2 "77" =
      ⟨200, .data { firstSeed with ID := 77, UpdatedAt := 9 }⟩ := by
  decide

/-- C10, amended. For every category in scope under path id `n` and every body
that `UpdateCategory` answers with 200 and whose id member is zero (left out)
or equal to `n`, the returned record has id `n` and `GetCategory` on the same
path id afterwards answers 200 with that record. -/
theorem C10_update_identity (eng : Category → Bool) (db : DB) (now : Nat) (id : String) (n : Nat)
    (old : Category) (j : CategoryJSON)
    (hid : ParseUint id 32 = .ok n) (hold : db.First n = .ok old)
    (hj : j.ID = 0 ∨ j.ID = n)
    (h200 : (UpdateCategory eng db now id (some j)).1.status = 200) :
    ∃ m db1, UpdateCategory eng db now id (some j) = (⟨200, .data m⟩, db1) ∧
      m.ID = n ∧ GetCategory db1 id = ⟨200, .data m⟩ := by
  rcases updateCategory_cases eng db now id (some j) with ⟨-, hne⟩ | h
  · exact absurd h200 hne
  · obtain ⟨n1, model, j1, m, db1, hp, hf, hb, -, -, hup, heq⟩ := h
    rw [hid] at hp
    simp only [Except.ok.injEq] at hp
    subst hp
    rw [hold] at hf
    simp only [Except.ok.injEq] at hf
    subst hf
    simp only [Option.some.injEq] at hb
    subst hb
    obtain ⟨hm, -, -⟩ := updates_ok eng db db1 now old (bound j) m hup
    have hoid := (first_ok db n old hold).2.1
    have hmid : m.ID = n := by
      rw [hm]
      simp only [assign, bound]
      rcases hj with h0 | h0
      · rw [if_pos h0]; exact hoid
      · split_ifs
        · exact hoid
        · exact h0
    refine ⟨m, db1, heq, hmid, ?_⟩
    have hfirst := first_after_update eng db db1 now n old m j hold hup
    rw [hmid] at hfirst
    unfold GetCategory
    rw [hid]
    simp only [hfirst]

/-- Witness for C10: renaming the first seeded category leaves it under
path id `1`. -/
theorem C10_update_identity_witness :
    ∃ m db1, UpdateCategory schemaEnforce seeded 9 "1" (some renamePayload) =
        (⟨200, .data m⟩, db1) ∧
      m.ID = 1 ∧ GetCategory db1 "1" = ⟨200, .data m⟩ :=
  C10_update_identity schemaEnforce seeded 9 "1" 1 firstSeed renamePayload rfl rfl
    (by decide) (by decide)

end FamilyBudget
